import Mathlib

/-!
Shallow embedding of the CleanCodeAAgent backend (`batch_analyzer.py`,
`server.py`): the text utilities, the specialised matchers for the `re`
patterns the source uses, the issue filter/validator, the heuristic issue
generator, the pipeline-output parsers, the retry loop with its error
classification, the per-instance analysis cache, and the HTTP handlers'
repo-info derivation.

Text is modelled as `List Char`; `\w`/`\s`/`.lower()` are modelled over the
ASCII range, which covers every input the properties below evaluate.  Each
Python `re` pattern is modelled by a hand-written matcher specialised to the
exact pattern string in the source (the patterns are simple enough that
greedy matching with the limited backtracking noted inline is exact).
-/

namespace CCA

/-- ASCII word character, modelling `\w`. -/
def wordChar (c : Char) : Bool :=
  (('a' ≤ c) && (c ≤ 'z')) || (('A' ≤ c) && (c ≤ 'Z')) ||
    (('0' ≤ c) && (c ≤ '9')) || (c = '_')

/-- ASCII whitespace, modelling `\s` and Python `str.strip()`/`str.split()`. -/
def spaceChar (c : Char) : Bool :=
  (c = ' ') || (c = '\t') || (c = '\n') || (c = '\r') || (c = '\x0b') || (c = '\x0c')

/-- Python `str.lower()` (ASCII range). -/
def lowerStr (s : List Char) : List Char := s.map Char.toLower

/-- Consume the literal `pat` at the head of `cs`, returning the rest. -/
def lit : List Char → List Char → Option (List Char)
  | [], cs => some cs
  | _ :: _, [] => none
  | p :: ps, c :: cs => if c = p then lit ps cs else none

def startsWith (pat cs : List Char) : Bool := (lit pat cs).isSome

/-- Python `pat in s` (substring containment). -/
def containsSub (pat : List Char) : List Char → Bool
  | [] => startsWith pat []
  | c :: cs => startsWith pat (c :: cs) || containsSub pat cs

/-- Python `s.split(sep)` for a one-character separator. -/
def splitOnChar (sep : Char) : List Char → List (List Char)
  | [] => [[]]
  | c :: cs =>
    if c = sep then [] :: splitOnChar sep cs
    else
      match splitOnChar sep cs with
      | [] => [[c]]
      | l :: ls => (c :: l) :: ls

/-- Python `s.split('\n')`, as used on file contents throughout the analyzer. -/
def splitLines : List Char → List (List Char) := splitOnChar '\n'

def joinLines : List (List Char) → List Char
  | [] => []
  | [l] => l
  | l :: ls => l ++ '\n' :: joinLines ls

def splitWsAux : List Char → List Char → List (List Char)
  | acc, [] => if acc.isEmpty then [] else [acc.reverse]
  | acc, c :: cs =>
    if spaceChar c then
      if acc.isEmpty then splitWsAux [] cs else acc.reverse :: splitWsAux [] cs
    else splitWsAux (c :: acc) cs

/-- Python `s.split()`: split on whitespace runs, dropping empty pieces. -/
def splitWs (cs : List Char) : List (List Char) := splitWsAux [] cs

def replaceAllAux (old new : List Char) : Nat → List Char → List Char
  | 0, cs => cs
  | _ + 1, [] => []
  | fuel + 1, c :: cs =>
    if startsWith old (c :: cs) && !old.isEmpty then
      new ++ replaceAllAux old new fuel ((c :: cs).drop old.length)
    else c :: replaceAllAux old new fuel cs

/-- Python `s.replace(old, new)`: all non-overlapping occurrences, left to right. -/
def pyReplace (s old new : List Char) : List Char := replaceAllAux old new s.length s

/-- `file_path.split('/')[-1].replace('.java', '')` from `_create_basic_issues`. -/
def baseClassName (filePath : List Char) : List Char :=
  pyReplace ((splitOnChar '/' filePath).getLastD []) ".java".data []

/-! ## Generic scanner for `re.findall` / `re.finditer` / `re.search`

A step function attempts a match at the current position; on success it
returns the capture, the last character the match consumed (used for the
following `\b` word-boundary checks) and the rest of the input.  The scanner
tries every position left to right and, after a match, resumes after the
consumed span, exactly like `re.findall`. -/

abbrev StepFn (α : Type) := Option Char → List Char → Option (α × Char × List Char)

def scanMatches (step : StepFn α) : Nat → Option Char → List Char → List α
  | 0, _, _ => []
  | _ + 1, _, [] => []
  | fuel + 1, prev, c :: cs =>
    match step prev (c :: cs) with
    | some (a, lastc, rest) =>
      if rest.length ≤ cs.length then a :: scanMatches step fuel (some lastc) rest
      else scanMatches step fuel (some c) cs
    | none => scanMatches step fuel (some c) cs

/-- All matches of `step` in `cs` (`re.findall` / `re.finditer`). -/
def scanAll (step : StepFn α) (cs : List Char) : List α := scanMatches step cs.length none cs

/-- First match of `step` in `cs` (`re.search`). -/
def searchFirst (step : StepFn α) (cs : List Char) : Option α := (scanAll step cs).head?

/-- `\s+` (maximal munch; every pattern below follows it with a non-space token). -/
def wsPlus : List Char → Option (List Char)
  | c :: rest => if spaceChar c then some (rest.dropWhile spaceChar) else none
  | [] => none

/-- `\s*`. -/
def wsStar (cs : List Char) : List Char := cs.dropWhile spaceChar

/-- `\w+` (maximal munch; every pattern below follows it with a token no word
character can begin, so the greedy run is exact). -/
def wordPlus (cs : List Char) : Option (List Char × List Char) :=
  let w := cs.takeWhile wordChar
  if w.isEmpty then none else some (w, cs.drop w.length)

/-- `\b` at the start of a match beginning with a word character. -/
def atBoundary : Option Char → Bool
  | none => true
  | some c => !wordChar c

/-- `public|private|protected` (alternatives are prefix-disjoint, so committing
to the first literal that matches is exact). -/
def visKw (cs : List Char) : Option (List Char) :=
  (lit "public".data cs) <|> (lit "private".data cs) <|> lit "protected".data cs

/-- `(?:\w+(?:<[^>]*>)?)\s+(\w+)`: a type with an optional generic argument,
then a captured name.  If the generic branch consumes `<...>` but the rest
fails, the engine backtracks to the no-generic branch; both are tried. -/
def matchTypeAndName (cs : List Char) : Option (List Char × List Char) :=
  match wordPlus cs with
  | none => none
  | some (_, cs1) =>
    let afterType : List Char → Option (List Char × List Char) := fun cs2 =>
      match wsPlus cs2 with
      | none => none
      | some cs3 => wordPlus cs3
    match cs1 with
    | '<' :: cs2 =>
      let inner := cs2.takeWhile (fun c => !(c = '>'))
      (match cs2.drop inner.length with
       | '>' :: cs3 => (afterType cs3) <|> afterType cs1
       | _ => afterType cs1)
    | _ => afterType cs1

/-- `method_decl_re` from `_create_basic_issues`:
`\b(?:public|private|protected)\s+(?:static\s+)?(?:\w+(?:<[^>]*>)?)\s+(\w+)\s*\(`.
Captures the method name; the match ends at `(`. -/
def stepMethodDecl : StepFn (List Char) := fun prev cs =>
  if atBoundary prev then
    match visKw cs with
    | none => none
    | some cs1 =>
      match wsPlus cs1 with
      | none => none
      | some cs2 =>
        let core : List Char → Option (List Char × Char × List Char) := fun csx =>
          match matchTypeAndName csx with
          | none => none
          | some (name, csr) =>
            match wsStar csr with
            | '(' :: csr2 => some (name, '(', csr2)
            | _ => none
        match lit "static".data cs2 with
        | some cs3 =>
          match wsPlus cs3 with
          | some cs4 => (core cs4) <|> core cs2
          | none => core cs2
        | none => core cs2
  else none

/-- `class|interface|enum` (prefix-disjoint alternatives). -/
def classKw (cs : List Char) : Option (List Char) :=
  (lit "class".data cs) <|> (lit "interface".data cs) <|> lit "enum".data cs

/-- `class_pattern` from `_filter_and_validate_issues`:
`\b(?:public\s+)?(?:class|interface|enum)\s+(\w+)`.  Captures the declared
type name. -/
def stepClassDecl : StepFn (List Char) := fun prev cs =>
  if atBoundary prev then
    let core : List Char → Option (List Char × Char × List Char) := fun csx =>
      match classKw csx with
      | none => none
      | some cs1 =>
        match wsPlus cs1 with
        | none => none
        | some cs2 =>
          match wordPlus cs2 with
          | some (name, rest) => some (name, name.getLastD 'x', rest)
          | none => none
    match lit "public".data cs with
    | some cs1 =>
      match wsPlus cs1 with
      | some cs2 => (core cs2) <|> core cs
      | none => core cs
    | none => core cs
  else none

/-- The method pattern of `_is_model_class`:
`\b(?:public|private|protected)\s+\w+\s+(\w+)\s*\(`. -/
def stepModelMethod : StepFn (List Char) := fun prev cs =>
  if atBoundary prev then
    match visKw cs with
    | none => none
    | some cs1 =>
      match wsPlus cs1 with
      | none => none
      | some cs2 =>
        match wordPlus cs2 with
        | none => none
        | some (_, cs3) =>
          match wsPlus cs3 with
          | none => none
          | some cs4 =>
            match wordPlus cs4 with
            | none => none
            | some (name, cs5) =>
              match wsStar cs5 with
              | '(' :: rest => some (name, '(', rest)
              | _ => none
  else none

/-- `pub_field_pattern` from `_create_basic_issues`: `\b(\w+)\.([a-z]\w*)\s*=\s*`.
Captures receiver and field name.  (The trailing `\s*` is left unconsumed;
no match can begin inside whitespace, so the scan results are unchanged.) -/
def stepFieldAccess : StepFn (List Char × List Char) := fun prev cs =>
  if atBoundary prev then
    match wordPlus cs with
    | none => none
    | some (obj, cs1) =>
      match cs1 with
      | '.' :: c :: cs2 =>
        if ('a' ≤ c) && (c ≤ 'z') then
          let w := cs2.takeWhile wordChar
          match wsStar (cs2.drop w.length) with
          | '=' :: rest => some ((obj, c :: w), '=', rest)
          | _ => none
        else none
      | _ => none
  else none

/-- One `\b<name>\b` occurrence (`re.findall(r'\b' + re.escape(name) + r'\b', ...)`
in the inline-variable heuristic). -/
def stepWordExact (name : List Char) : StepFn Unit := fun prev cs =>
  if atBoundary prev then
    match lit name cs with
    | some rest =>
      match rest with
      | [] => some ((), name.getLastD 'x', [])
      | c :: _ => if wordChar c then none else some ((), name.getLastD 'x', rest)
    | none => none
  else none

def countWord (name text : List Char) : Nat := (scanAll (stepWordExact name) text).length

/-! ## The issue record

An issue is a JSON object; the analyzer reads its fields with
`issue.get(key, '')`-style defaults, so absent string fields are modelled by
the default values below.  Presence matters for `rank` (`'rank' not in issue`)
so it is an `Option`; a missing or zero `line` is falsy in every place the
analyzer reads it, so `line = 0` models an absent line. -/

structure Issue where
  className : List Char := []
  functionName : List Char := []
  functionSignature : List Char := []
  refactoringType : List Char := []
  rationale : List Char := []
  rank : Option Nat := none
  severity : List Char := []
  line : Nat := 0
  githubUrl : Option (List Char) := none
  deriving DecidableEq, Repr

/-- The business-logic keyword list of `_is_getter_setter`. -/
def businessLogicKeywords : List (List Char) :=
  ["greeting".data, "status".data, "report".data, "calculate".data, "compute".data,
   "generate".data, "process".data, "validate".data, "check".data, "update".data,
   "create".data, "build".data, "confirm".data, "send".data, "email".data,
   "tier".data, "points".data, "price".data, "total".data]

/-- `_is_getter_setter` from `batch_analyzer.py`: a name containing a
business-logic keyword is never a getter/setter; otherwise the
`get`/`set`/`is` prefix rules apply. -/
def is_getter_setter (methodName : List Char) : Bool :=
  if methodName = [] ∨ methodName = "N/A".data then false
  else if businessLogicKeywords.any (fun kw => containsSub kw (lowerStr methodName)) then false
  else
    (startsWith "get".data (lowerStr methodName) && decide (methodName.length > 3)) ||
    (startsWith "set".data (lowerStr methodName) && decide (methodName.length > 3)) ||
    (startsWith "is".data (lowerStr methodName) && decide (methodName.length > 2))

/-- The declared-type-name extraction of `_filter_and_validate_issues`: the
first `class_pattern` match of every line (`re.search` per line). -/
def extract_classes (content : List Char) : List (List Char) :=
  (splitLines content).filterMap (fun line => searchFirst stepClassDecl line)

def modelPathKeywords : List (List Char) :=
  ["model".data, "entity".data, "dto".data, "domain".data, "pojo".data]

/-- The path-keyword branch of `_is_model_class`. -/
def pathIsModelish (filePath : List Char) : Bool :=
  modelPathKeywords.any fun kw => containsSub kw (lowerStr filePath)

def modelCountsAux : List (List Char) → Nat × Nat → Nat × Nat
  | [], acc => acc
  | l :: ls, (total, gs) =>
    match searchFirst stepModelMethod l with
    | some name => modelCountsAux ls (total + 1, gs + (if is_getter_setter name then 1 else 0))
    | none => modelCountsAux ls (total, gs)

/-- `(total_methods, getter_setter_methods)` as counted by `_is_model_class`. -/
def model_method_counts (content : List Char) : Nat × Nat :=
  modelCountsAux (splitLines content) (0, 0)

/-- `_is_model_class` from `batch_analyzer.py`: path keywords first, then the
getter/setter ratio (`ratio >= 0.8`; the Python float comparison is exact
rational arithmetic at every ratio a method count can produce here, modelled
as `5 * gs ≥ 4 * total`). -/
def is_model_class (content filePath : List Char) : Bool :=
  if pathIsModelish filePath then true
  else
    let counts := model_method_counts content
    if counts.1 > 0 then decide (5 * counts.2 ≥ 4 * counts.1) else false

/-- ASCII apostrophe (used by the f-string rationales in the source). -/
def squote : Char := Char.ofNat 39

def quoteWrap (s : List Char) : List Char := squote :: (s ++ [squote])

/-- The own-field phrase list of filter 4 in `_filter_and_validate_issues`. -/
def ownFieldPhrases : List (List Char) :=
  ["own field".data, "its own field".data, "same class".data, "accesses its own".data,
   "this class".data ++ squote :: "s own".data, "from its own".data, "uses its own".data]

/-- The drop decision of `_filter_and_validate_issues` for one issue.  The
source sets `skip_reason` in five sequential filters and keeps the issue only
when none fired, so keeping is the negation of this disjunction. -/
def issue_drop (actualClasses : List (List Char)) (isModel : Bool) (i : Issue) : Bool :=
  let refLower := lowerStr i.refactoringType
  let rat := lowerStr i.rationale
  (is_getter_setter i.functionName &&
     (containsSub "information hiding".data refLower || containsSub "information hiding".data rat)) ||
  (!i.className.isEmpty && !(actualClasses.contains i.className)) ||
  (isModel && containsSub "god class".data rat) ||
  ((containsSub "feature envy".data refLower || containsSub "feature envy".data rat) &&
     ownFieldPhrases.any (fun p => containsSub p rat)) ||
  (containsSub "exposes public fields".data rat && is_getter_setter i.functionName)

/-- `_filter_and_validate_issues` from `batch_analyzer.py`. -/
def filter_and_validate_issues (issues : List Issue) (content filePath : List Char) :
    List Issue :=
  let actualClasses := extract_classes content
  let isModel := is_model_class content filePath
  issues.filter fun i => !(issue_drop actualClasses isModel i)

/-! ## `_create_basic_issues`: the heuristic fallback generator -/

def natStr (n : Nat) : List Char := (Nat.repr n).data

def litAny (pats : List (List Char)) (cs : List Char) : Option (List Char) :=
  match pats with
  | [] => none
  | p :: ps => (lit p cs) <|> litAny ps cs

/-- The type alternatives of `inline_pattern` (mutually prefix-disjoint). -/
def javaPrimTypes : List (List Char) :=
  ["int".data, "long".data, "double".data, "float".data, "boolean".data, "String".data]

/-- `.+;` anchored here: at least one non-newline character, then `;`. -/
def dotPlusSemiCore (cs : List Char) : Bool :=
  ((cs.takeWhile (fun c => !(c = '\n'))).drop 1).contains ';'

/-- `\s*.+;`: some whitespace prefix (possibly crossing newlines) then `.+;`. -/
def dotPlusSemi : List Char → Bool
  | [] => false
  | c :: rest =>
    dotPlusSemiCore (c :: rest) || (if spaceChar c then dotPlusSemi rest else false)

/-- `inline_pattern` from `_create_basic_issues` (`re.match`, anchored):
`^\s*(int|long|double|float|boolean|String)\s+(\w+)\s*=\s*.+;`.
Captures the variable name. -/
def inline_var_match (line : List Char) : Option (List Char) :=
  match litAny javaPrimTypes (wsStar line) with
  | none => none
  | some cs1 =>
    match wsPlus cs1 with
    | none => none
    | some cs2 =>
      match wordPlus cs2 with
      | none => none
      | some (name, cs3) =>
        match wsStar cs3 with
        | '=' :: cs4 => if dotPlusSemi cs4 then some name else none
        | _ => none

/-- `kw` followed by `\b`. -/
def kwWithBoundary (kw : List Char) (cs : List Char) : Bool :=
  match lit kw cs with
  | some [] => true
  | some (c :: _) => !wordChar c
  | none => false

/-- The negative lookahead `(?:static\s+)?(?:class|interface|enum)\b` of
`pub_field_decl_re` (both choices of the optional group are tried). -/
def typeDeclLookahead (cs : List Char) : Bool :=
  (["class".data, "interface".data, "enum".data].any fun kw => kwWithBoundary kw cs) ||
  (match lit "static".data cs with
   | some cs1 =>
     match wsPlus cs1 with
     | some cs2 => ["class".data, "interface".data, "enum".data].any fun kw => kwWithBoundary kw cs2
     | none => false
   | none => false)

/-- `(?!void\b)(\w+(?:<[^>]*>)?)\s+(\w+)\s*;` — captures the field name. -/
def pubFieldTail (cs : List Char) : Option (List Char) :=
  if kwWithBoundary "void".data cs then none
  else
    match matchTypeAndName cs with
    | none => none
    | some (name, csr) =>
      match wsStar csr with
      | ';' :: _ => some name
      | _ => none

/-- `(?:(?:static|final)\s+)*` then `pubFieldTail`, greedy with backtracking:
more iterations are preferred, and on failure the engine retries with fewer. -/
def pubFieldStar : Nat → List Char → Option (List Char)
  | 0, cs => pubFieldTail cs
  | fuel + 1, cs =>
    match (lit "static".data cs) <|> lit "final".data cs with
    | some cs1 =>
      match wsPlus cs1 with
      | some cs2 => (pubFieldStar fuel cs2) <|> pubFieldTail cs
      | none => pubFieldTail cs
    | none => pubFieldTail cs

/-- `pub_field_decl_re` from `_create_basic_issues` (`re.match`, anchored):
`^\s*public\s+(?!(?:static\s+)?(?:class|interface|enum)\b)(?:(?:static|final)\s+)*(?!void\b)(\w+(?:<[^>]*>)?)\s+(\w+)\s*;`. -/
def pub_field_decl_match (line : List Char) : Option (List Char) :=
  match lit "public".data (wsStar line) with
  | none => none
  | some cs1 =>
    match wsPlus cs1 with
    | none => none
    | some cs2 =>
      if typeDeclLookahead cs2 then none
      else pubFieldStar line.length cs2

/-- The comment skip of the public-field-declaration scan:
`line.strip().startswith('//') or line.strip().startswith('*')`. -/
def lineIsCommentish (line : List Char) : Bool :=
  startsWith "//".data (wsStar line) || startsWith "*".data (wsStar line)

/-- `'public ' in line and '(' in line and '{' in line` — the long-method
scanner's method-opening condition. -/
def isMethodHeaderLine (line : List Char) : Bool :=
  containsSub "public ".data line && line.contains '(' && line.contains '{'

/-- `line.split('(')[0].split()[-1]`; `none` models the `IndexError` Python
raises when the part before `(` has no whitespace-separated token. -/
def headerMethodName (line : List Char) : Option (List Char) :=
  (splitWs (line.takeWhile (fun c => !(c = '(')))).getLast?

structure LMState where
  inMethod : Bool
  count : Nat
  name : List Char
  startLine : Nat

def longMethodIssue (cls name : List Char) (count startLine rank : Nat) : Issue :=
  { className := cls, functionName := name,
    functionSignature := name ++ "(...)".data,
    refactoringType := "extract method".data,
    rationale := "Method has ".data ++ natStr count ++
      " lines. Consider extracting smaller methods.".data,
    rank := some rank, severity := "medium".data, line := startLine }

/-- The long-method scan of `_create_basic_issues` (threshold 25). -/
def longMethodPass (cls : List Char) :
    List (List Char) → Nat → LMState → List Issue → Option (List Issue)
  | [], _, _, acc => some acc
  | l :: rest, i, st, acc =>
    if isMethodHeaderLine l then
      match headerMethodName l with
      | none => none
      | some nm => longMethodPass cls rest (i + 1) ⟨true, 0, nm, i⟩ acc
    else if st.inMethod then
      let c := st.count + 1
      if l.contains '}' then
        longMethodPass cls rest (i + 1) ⟨false, c, st.name, st.startLine⟩
          (if c > 25 then acc ++ [longMethodIssue cls st.name c st.startLine (acc.length + 1)]
           else acc)
      else longMethodPass cls rest (i + 1) ⟨true, c, st.name, st.startLine⟩ acc
    else longMethodPass cls rest (i + 1) st acc

/-- The non-accessor filter of the god-class heuristic (prefix rules only —
unlike `_is_getter_setter` it has no business-keyword exemption). -/
def isAccessorName (m : List Char) : Bool :=
  (startsWith "get".data m && decide (m.length > 3)) ||
  (startsWith "set".data m && decide (m.length > 3)) ||
  (startsWith "is".data (lowerStr m) && decide (m.length > 2))

def godClassIssue (cls : List Char) (count rank : Nat) : Issue :=
  { className := cls, functionName := "N/A".data,
    functionSignature := "class-level".data,
    refactoringType := "extract class".data,
    rationale := "Class has ".data ++ natStr count ++
      " methods. Consider splitting responsibilities.".data,
    rank := some rank, severity := "high".data, line := 1 }

/-- The god-class heuristic of `_create_basic_issues` (threshold 5). -/
def godClassPass (cls content : List Char) (acc : List Issue) : List Issue :=
  let businessCount :=
    ((scanAll stepMethodDecl content).filter (fun m => !isAccessorName m)).length
  if businessCount > 5 then acc ++ [godClassIssue cls businessCount (acc.length + 1)]
  else acc

/-- The number of declared methods found by `method_decl_re` whose names do
not use getter/setter/`is` prefixes (`business_methods` in the source). -/
def business_method_count (content : List Char) : Nat :=
  ((scanAll stepMethodDecl content).filter (fun m => !isAccessorName m)).length

def inlineVarIssue (cls var : List Char) (lineNo rank : Nat) : Issue :=
  { className := cls, functionName := "main".data,
    functionSignature := "main(String[] args)".data,
    refactoringType := "inline variable".data,
    rationale := "Variable ".data ++ quoteWrap var ++
      " is assigned once and used exactly once immediately after — it can be inlined to remove unnecessary indirection.".data,
    rank := some rank, severity := "low".data, line := lineNo }

/-- The inline-variable heuristic of `_create_basic_issues`: `i` is the
0-based index, usages are counted in the next three lines and in all
remaining lines. -/
def inlineVarPass (cls : List Char) : List (List Char) → Nat → List Issue → List Issue
  | [], _, acc => acc
  | l :: rest, i, acc =>
    match inline_var_match l with
    | some var =>
      let usageCount := countWord var (joinLines (rest.take 3))
      let totalUsages := countWord var (joinLines rest)
      inlineVarPass cls rest (i + 1)
        (if usageCount = 1 && totalUsages = 1 then
          acc ++ [inlineVarIssue cls var (i + 1) (acc.length + 1)]
         else acc)
    | none => inlineVarPass cls rest (i + 1) acc

def isUpperFirst : List Char → Bool
  | [] => false
  | c :: _ => ('A' ≤ c) && (c ≤ 'Z')

def fieldAccessIssue (cls obj fld : List Char) (lineNo rank : Nat) : Issue :=
  { className := cls, functionName := "main".data,
    functionSignature := "main(String[] args)".data,
    refactoringType := "extract class".data,
    rationale := "Direct assignment to public field ".data ++
      (squote :: (obj ++ '.' :: fld ++ [squote])) ++
      " bypasses encapsulation. The target class should expose a constructor or setter instead of public fields.".data,
    rank := some rank, severity := "medium".data, line := lineNo }

def fieldAccessLine (cls : List Char) (lineNo : Nat) :
    List (List Char × List Char) → List (List Char) × List Issue →
      List (List Char) × List Issue
  | [], st => st
  | (obj, fld) :: ms, (seen, acc) =>
    if obj = "this".data || seen.contains obj then fieldAccessLine cls lineNo ms (seen, acc)
    else if isUpperFirst obj then fieldAccessLine cls lineNo ms (seen, acc)
    else
      fieldAccessLine cls lineNo ms
        (seen ++ [obj], acc ++ [fieldAccessIssue cls obj fld lineNo (acc.length + 1)])

/-- The public-field-assignment heuristic of `_create_basic_issues`. -/
def fieldAccessPass (cls : List Char) :
    List (List Char) → Nat → List (List Char) → List Issue → List Issue
  | [], _, _, acc => acc
  | l :: rest, i, seen, acc =>
    let st := fieldAccessLine cls i (scanAll stepFieldAccess l) (seen, acc)
    fieldAccessPass cls rest (i + 1) st.1 st.2

def collectPubFields : List (List Char) → Nat → List (List Char × Nat)
  | [], _ => []
  | l :: rest, i =>
    if lineIsCommentish l then collectPubFields rest (i + 1)
    else
      match pub_field_decl_match l with
      | some nm => (nm, i) :: collectPubFields rest (i + 1)
      | none => collectPubFields rest (i + 1)

/-- `', '.join(...)`. -/
def joinCommaSep : List (List Char) → List Char
  | [] => []
  | [x] => x
  | x :: xs => x ++ ", ".data ++ joinCommaSep xs

/-- The public-field-declaration heuristic of `_create_basic_issues`: one
aggregated issue listing up to five field names. -/
def pubFieldDeclPass (cls : List Char) (lines : List (List Char)) (acc : List Issue) :
    List Issue :=
  let found := collectPubFields lines 1
  if found.isEmpty then acc
  else
    let fieldList := joinCommaSep ((found.take 5).map (fun p => quoteWrap p.1))
    let suffix :=
      if found.length > 5 then " and ".data ++ natStr (found.length - 5) ++ " more".data
      else []
    acc ++ [{
      className := cls, functionName := "N/A".data,
      functionSignature := "class-level".data,
      refactoringType := "extract class".data,
      rationale := "Information hiding violation: ".data ++ natStr found.length ++
        " public instance field(s) found (".data ++ fieldList ++ suffix ++
        "). Fields should be private with getter/setter access to preserve encapsulation.".data,
      rank := some (acc.length + 1), severity := "medium".data,
      line := (found.headD ([], 1)).2 }]

/-- `_create_basic_issues` from `batch_analyzer.py`: the five heuristic scans
in source order, accumulating one issue list (so `rank` is the 1-based
position).  `none` models the `IndexError` the method-name extraction can
raise. -/
def create_basic_issues (codeContent filePath : List Char) : Option (List Issue) :=
  let lines := splitLines codeContent
  let cls := baseClassName filePath
  match longMethodPass cls lines 1 ⟨false, 0, [], 0⟩ [] with
  | none => none
  | some acc1 =>
    let acc2 := godClassPass cls codeContent acc1
    let acc3 := inlineVarPass cls lines 0 acc2
    let acc4 := fieldAccessPass cls lines 1 [] acc3
    some (pubFieldDeclPass cls lines acc4)

/-! ## Pipeline-output parsing (`_parse_crew_output` / `_parse_report_files`)

`json.loads` itself is a library call; it is a parameter `Decoder` here,
returning `failed` for a `JSONDecodeError`, `parsedOther` for a successful
parse that is not a list of issue objects (or whose further use raises), and
`parsedList` for a parsed issue array.  Everything the analyzer does around
it is modelled exactly. -/

inductive JsonParse where
  | failed
  | parsedOther
  | parsedList (issues : List Issue)
  deriving DecidableEq

abbrev Decoder := List Char → JsonParse

/-- On the reversed text after `[\s*{`, the index of the first `]` that is
preceded (in the original order, modulo whitespace) by `}` — i.e. the end of
the greedy `[\s\S]*` match of `(\[\s*\{[\s\S]*\}\s*\])`. -/
def findCloseRev : List Char → Option Nat
  | [] => none
  | c :: rest =>
    if c = ']' && startsWith "\x7d".data (rest.dropWhile spaceChar) then some 0
    else (findCloseRev rest).map (· + 1)

def extract_bracket_at (t : List Char) : Option (List Char) :=
  match t with
  | '[' :: u =>
    let ws := u.takeWhile spaceChar
    (match u.drop ws.length with
     | '{' :: w =>
       (match findCloseRev w.reverse with
        | some j => some ('[' :: (ws ++ '{' :: w.take (w.length - j)))
        | none => none)
     | _ => none)
  | _ => none

/-- `re.search(r'(\[\s*\{[\s\S]*\}\s*\])', text)`: the leftmost start whose
greedy bracketed span matches. -/
def extract_bracket : List Char → Option (List Char)
  | [] => none
  | c :: rest => (extract_bracket_at (c :: rest)) <|> extract_bracket rest

def assignRanksFrom : Nat → List Issue → List Issue
  | _, [] => []
  | i, x :: xs =>
    (if x.rank = none then { x with rank := some i } else x) :: assignRanksFrom (i + 1) xs

/-- The rank backfill of `_parse_report_files`: a 1-based position for every
issue missing `rank`. -/
def assign_ranks (l : List Issue) : List Issue := assignRanksFrom 1 l

/-- One iteration of the `_parse_report_files` loop over an existing report
file's content. -/
def try_report (decode : Decoder) (content : List Char) : Option (List Issue) :=
  match extract_bracket content with
  | some sub =>
    (match decode sub with
     | .parsedList l => if l.isEmpty then none else some (assign_ranks l)
     | _ => none)
  | none => none

/-- `_parse_report_files`: `ranking_report.md` first, then
`localization_report.md`; `none` models a missing file. -/
def parse_report_files (decode : Decoder) (ranking localization : Option (List Char)) :
    List Issue :=
  match ranking.bind (try_report decode) with
  | some l => l
  | none =>
    match localization.bind (try_report decode) with
    | some l => l
    | none => []

def isBlankText (cs : List Char) : Bool := cs.all spaceChar

/-- `_parse_crew_output` on the in-memory result text (`result.raw`): empty /
blank / `'None'` goes straight to the report files; a parsed non-empty list
is returned as-is; a decode failure attempts the bracketed-substring
extraction; everything else falls back to the report files. -/
def parse_crew_output (decode : Decoder) (resultText : List Char)
    (ranking localization : Option (List Char)) : List Issue :=
  if resultText = [] ∨ isBlankText resultText = true ∨ resultText = "None".data then
    parse_report_files decode ranking localization
  else
    match decode resultText with
    | .parsedList l =>
      if l.isEmpty then parse_report_files decode ranking localization else l
    | .parsedOther => parse_report_files decode ranking localization
    | .failed =>
      match extract_bracket resultText with
      | some sub =>
        (match decode sub with
         | .parsedList l =>
           if l.isEmpty then parse_report_files decode ranking localization else l
         | _ => parse_report_files decode ranking localization)
      | none => parse_report_files decode ranking localization

/-! ## Error classification (`_is_llm_error` / `_is_rate_limit_error`) -/

def llmErrorKeywords : List (List Char) :=
  ["llm".data, "empty".data, "timeout".data, "connection".data, "bedrock".data,
   "aws".data, "credentials".data, "http".data, "connection refused".data,
   "no response".data, "rate limit".data]

def is_llm_error (msg : List Char) : Bool :=
  llmErrorKeywords.any fun kw => containsSub kw (lowerStr msg)

def rateLimitKeywords : List (List Char) :=
  ["429".data, "rate limit".data, "ratelimit".data, "quota".data,
   "resource_exhausted".data, "resource exhausted".data, "too many requests".data,
   "requests per minute".data, "tokens per minute".data, "model is overloaded".data,
   "capacity".data, "overloaded".data, "retry after".data]

def is_rate_limit_error (msg : List Char) : Bool :=
  rateLimitKeywords.any fun kw => containsSub kw (lowerStr msg)

/-! ## GitHub URLs and repo info -/

structure RepoInfo where
  owner : List Char
  repo : List Char
  branch : List Char
  deriving DecidableEq, Repr

/-- `_generate_github_url`: empty string without owner/repo; `#L` anchor only
for a truthy line number. -/
def generate_github_url (repoInfo : Option RepoInfo) (filePath : List Char)
    (lineNumber : Nat) : List Char :=
  match repoInfo with
  | none => []
  | some info =>
    if info.owner.isEmpty || info.repo.isEmpty then []
    else
      let url := "https://github.com/".data ++ info.owner ++ '/' :: info.repo ++
        "/blob/".data ++ info.branch ++ '/' :: filePath
      if lineNumber ≠ 0 then url ++ "#L".data ++ natStr lineNumber else url

/-- The URL backfill loop of `_run_single_analysis` (steps after filtering):
for every issue with a falsy `github_url`, the line is the issue's own truthy
`line` or `_find_function_line`'s result — the latter is the external
`javalang`-based lookup, a parameter here. -/
def backfill_urls (repoInfo : Option RepoInfo) (resolveLine : Issue → Nat)
    (filePath : List Char) (issues : List Issue) : List Issue :=
  match repoInfo with
  | none => issues
  | some _ =>
    issues.map fun i =>
      if i.githubUrl = none || i.githubUrl = some [] then
        let ln := if i.line ≠ 0 then i.line else resolveLine i
        { i with githubUrl := some (generate_github_url repoInfo filePath ln) }
      else i

/-- The per-issue URL attachment of `analyze_repository`: performed only when
`repo_info` is present (`if self.repo_info:`) and for issues carrying a
`line` (absence modelled by `0`); without repo info the issues pass through
untouched. -/
def attach_urls (repoInfo : Option RepoInfo) (filePath : List Char)
    (issues : List Issue) : List Issue :=
  match repoInfo with
  | none => issues
  | some _ =>
    issues.map fun i =>
      if i.line ≠ 0 then
        { i with githubUrl := some (generate_github_url repoInfo filePath i.line) }
      else i

/-- The repo-info derivation shared by `analyze_repository` and
`analyze_file` in `server.py`:
`if repo and '/' in repo:` then split on `/` and, when at least two parts
result, take the first two as owner and repo. -/
def derive_repo_info (repo : Option (List Char)) (branch : List Char) : Option RepoInfo :=
  match repo with
  | none => none
  | some r =>
    if !r.isEmpty && r.contains '/' then
      let parts := splitOnChar '/' r
      if parts.length ≥ 2 then
        some { owner := parts.getD 0 [], repo := parts.getD 1 [], branch := branch }
      else none
    else none

/-! ## The retry core (`_run_single_analysis`) and the cache
(`analyze_single_file`)

The crew/LLM invocation of each attempt is external; an attempt's outcome is
either an exception (`raises msg`, covering steps 1–5 of the loop body) or a
normal return whose parsed issue list is `returns parsed` (the result of
`_parse_crew_output`).  Everything after parsing — heuristic substitution,
validation, URL backfill, caching, the wait/retry/abandon policy and the
final heuristic fallback — is modelled exactly. -/

inductive CrewOutcome where
  | raises (msg : List Char)
  | returns (parsed : List Issue)

/-- Steps 3–4 of a successful attempt: substitute heuristic issues when the
parse is empty, then validate.  `none` models the heuristic generator
raising (caught by the attempt's `except`). -/
def attempt_post_process (parsed : List Issue) (content filePath : List Char) :
    Option (List Issue) :=
  if parsed.isEmpty then
    match create_basic_issues content filePath with
    | some raw => some (filter_and_validate_issues raw content filePath)
    | none => none
  else some (filter_and_validate_issues parsed content filePath)

structure RunResult where
  waits : List Nat
  returned : List Issue
  cached : Option (List Issue)
  crewCalls : Nat
  deriving DecidableEq, Repr

/-- The post-loop fallback of `_run_single_analysis`: heuristic issues, URL
backfill, unconditional cache write; an empty result and no cache write when
the heuristic generator raises. -/
def fallback_result (content filePath : List Char) (repoInfo : Option RepoInfo)
    (resolveLine : Issue → Nat) (waits : List Nat) (calls : Nat) : RunResult :=
  match create_basic_issues content filePath with
  | some fb =>
    let fb2 := backfill_urls repoInfo resolveLine filePath fb
    { waits := waits, returned := fb2, cached := some fb2, crewCalls := calls }
  | none => { waits := waits, returned := [], cached := none, crewCalls := calls }

/-- The error classification of the retry loop's `except` branch: a
rate-limit match waits a fixed 60 s, otherwise an LLM/transport match waits
`retry_backoff ** (attempt - 1)` seconds, otherwise (`none`) the retries are
abandoned. -/
def retry_wait (backoff attempt : Nat) (msg : List Char) : Option Nat :=
  if is_rate_limit_error msg = true then some 60
  else if is_llm_error msg = true then some (backoff ^ (attempt - 1)) else none

/-- One attempt of the loop body (steps 1–5): the crew invocation and parse
(`outcomes`), then substitution/validation; `error` carries the exception
message the `except` branch classifies. -/
def attempt_step (outcomes : Nat → CrewOutcome) (fbErrMsg content filePath : List Char)
    (attempt : Nat) : Except (List Char) (List Issue) :=
  match outcomes attempt with
  | .raises msg => .error msg
  | .returns parsed =>
    match attempt_post_process parsed content filePath with
    | some filtered => .ok filtered
    | none => .error fbErrMsg

/-- The retry loop of `_run_single_analysis`: `remaining + 1` attempts are
left (so `0 < remaining` is `attempt < max_retries`); on an error the wait is
`retry_wait`'s classification or the loop is abandoned; a success caches
(outside check mode) and returns. -/
def runAttemptsAux (content filePath : List Char) (repoInfo : Option RepoInfo)
    (resolveLine : Issue → Nat) (outcomes : Nat → CrewOutcome) (fbErrMsg : List Char)
    (backoff : Nat) (checkMode : Bool) :
    Nat → Nat → List Nat → Nat → RunResult
  | _, 0, waits, calls => fallback_result content filePath repoInfo resolveLine waits calls
  | attempt, remaining + 1, waits, calls =>
    match attempt_step outcomes fbErrMsg content filePath attempt with
    | .ok filtered =>
      let final := backfill_urls repoInfo resolveLine filePath filtered
      { waits := waits, returned := final,
        cached := if checkMode then none else some final, crewCalls := calls + 1 }
    | .error msg =>
      if 0 < remaining then
        match retry_wait backoff attempt msg with
        | some w =>
          runAttemptsAux content filePath repoInfo resolveLine outcomes fbErrMsg backoff
            checkMode (attempt + 1) remaining (waits ++ [w]) (calls + 1)
        | none => fallback_result content filePath repoInfo resolveLine waits (calls + 1)
      else fallback_result content filePath repoInfo resolveLine waits (calls + 1)

/-- `_run_single_analysis` from `batch_analyzer.py`. -/
def run_single_analysis (content filePath : List Char) (repoInfo : Option RepoInfo)
    (resolveLine : Issue → Nat) (outcomes : Nat → CrewOutcome) (fbErrMsg : List Char)
    (maxRetries backoff : Nat) (checkMode : Bool) : RunResult :=
  runAttemptsAux content filePath repoInfo resolveLine outcomes fbErrMsg backoff checkMode
    1 maxRetries [] 0

/-- The per-instance `analysis_cache` (`dict`): modelled as an association
list where insertion prepends and lookup takes the most recent binding. -/
abbrev AnalysisCache := List (Int × List Issue)

def cacheLookup (cache : AnalysisCache) (key : Int) : Option (List Issue) :=
  match cache with
  | [] => none
  | (k, v) :: rest => if k = key then some v else cacheLookup rest key

def cacheInsert (cache : AnalysisCache) (key : Int) (v : List Issue) : AnalysisCache :=
  (key, v) :: cache

def applyCached (cache : AnalysisCache) (key : Int) : Option (List Issue) → AnalysisCache
  | some v => cacheInsert cache key v
  | none => cache

structure AnalyzeResult where
  returned : List Issue
  cache : AnalysisCache
  crewCalls : Nat
  deriving DecidableEq

/-- `result = first_result if len(first_result) >= len(second_result) else second_result`
— the consistency check keeps the run with more issues, the first on ties. -/
def consistency_choice (r1 r2 : RunResult) : List Issue :=
  if r1.returned.length ≥ r2.returned.length then r1.returned else r2.returned

/-- The consistency-check branch of `analyze_single_file`: two check-mode
runs (whose inner fallback paths may still write the cache), then the chosen
result is cached and returned. -/
def analyze_single_file_checked (hashFn : List Char → Int)
    (outcomes1 outcomes2 : Nat → CrewOutcome) (fbErrMsg : List Char)
    (repoInfo : Option RepoInfo) (resolveLine : Issue → Nat) (maxRetries backoff : Nat)
    (cache : AnalysisCache) (content filePath : List Char) : AnalyzeResult :=
  let key := hashFn content
  let r1 := run_single_analysis content filePath repoInfo resolveLine outcomes1
    fbErrMsg maxRetries backoff true
  let r2 := run_single_analysis content filePath repoInfo resolveLine outcomes2
    fbErrMsg maxRetries backoff true
  { returned := consistency_choice r1 r2,
    cache := cacheInsert (applyCached (applyCached cache key r1.cached) key r2.cached) key
      (consistency_choice r1 r2),
    crewCalls := r1.crewCalls + r2.crewCalls }

/-- The plain branch of `analyze_single_file`: one run, whose own success or
fallback path writes the cache. -/
def analyze_single_file_unchecked (hashFn : List Char → Int)
    (outcomes1 : Nat → CrewOutcome) (fbErrMsg : List Char)
    (repoInfo : Option RepoInfo) (resolveLine : Issue → Nat) (maxRetries backoff : Nat)
    (cache : AnalysisCache) (content filePath : List Char) : AnalyzeResult :=
  let r := run_single_analysis content filePath repoInfo resolveLine outcomes1
    fbErrMsg maxRetries backoff false
  { returned := r.returned, cache := applyCached cache (hashFn content) r.cached,
    crewCalls := r.crewCalls }

/-- `analyze_single_file` from `batch_analyzer.py`: a cache hit on
`hash(code_content)` short-circuits everything; otherwise either one run
(caching inside `_run_single_analysis`) or, with the consistency check, two
check-mode runs whose larger result (first on ties) is cached and returned.
`hashFn` models Python's `hash`; the two runs' crew outcomes are the
`outcomes1`/`outcomes2` parameters. -/
def analyze_single_file (hashFn : List Char → Int) (enableConsistencyCheck : Bool)
    (outcomes1 outcomes2 : Nat → CrewOutcome) (fbErrMsg : List Char)
    (repoInfo : Option RepoInfo) (resolveLine : Issue → Nat) (maxRetries backoff : Nat)
    (cache : AnalysisCache) (content filePath : List Char) : AnalyzeResult :=
  match cacheLookup cache (hashFn content) with
  | some v => { returned := v, cache := cache, crewCalls := 0 }
  | none =>
    if enableConsistencyCheck = true then
      analyze_single_file_checked hashFn outcomes1 outcomes2 fbErrMsg repoInfo resolveLine
        maxRetries backoff cache content filePath
    else
      analyze_single_file_unchecked hashFn outcomes1 fbErrMsg repoInfo resolveLine
        maxRetries backoff cache content filePath

/-! ## Helper lemmas -/

lemma splitOnChar_length_pos (sep : Char) : ∀ cs, 0 < (splitOnChar sep cs).length
  | [] => by simp [splitOnChar]
  | c :: cs => by
    by_cases h : c = sep
    · simp [splitOnChar, h]
    · simp only [splitOnChar, if_neg h]
      cases hs : splitOnChar sep cs with
      | nil => simp
      | cons l ls => simp

lemma splitOnChar_length_two (sep : Char) :
    ∀ cs, sep ∈ cs → 2 ≤ (splitOnChar sep cs).length
  | [], h => absurd h (List.not_mem_nil sep)
  | c :: cs, h => by
    by_cases hc : c = sep
    · have := splitOnChar_length_pos sep cs
      simp [splitOnChar, hc]
      omega
    · have hmem : sep ∈ cs := by
        rcases List.mem_cons.mp h with h1 | h1
        · exact absurd h1.symm hc
        · exact h1
      have h2 := splitOnChar_length_two sep cs hmem
      simp only [splitOnChar, if_neg hc]
      cases hs : splitOnChar sep cs with
      | nil => simp [hs] at h2
      | cons l ls =>
        rw [hs] at h2
        simpa using h2

/-! ## Claim C8: repo-info derivation -/

/-- C8 counterexample: `repoIdentifier = "/x"` contains a `/` but splitting
on `/` yields an empty first part; `analyze_repository`/`analyze_file` still
construct a `RepoInfo` (with an empty owner), contradicting "only constructed
when splitting yields two non-empty parts". -/
theorem C8_counterexample :
    derive_repo_info (some "/x".data) "main".data =
      some { owner := [], repo := "x".data, branch := "main".data } := by decide

/-- C8 (amended): a `RepoInfo` is constructed exactly when the request's repo
identifier is non-empty and contains at least one `/` — the first two
`/`-separated parts, which may be empty, become owner and repo; when no
`RepoInfo` is constructed the analysis proceeds with URL enrichment disabled
rather than failing: issues pass through `analyze_repository`'s URL
attachment untouched and `_generate_github_url` returns the empty string. -/
theorem C8_amended (repo branch filePath : List Char) (issues : List Issue) (ln : Nat) :
    ((derive_repo_info (some repo) branch).isSome ↔ (repo ≠ [] ∧ '/' ∈ repo)) ∧
    derive_repo_info none branch = none ∧
    attach_urls none filePath issues = issues ∧
    generate_github_url none filePath ln = [] := by
  refine ⟨?_, rfl, rfl, rfl⟩
  constructor
  · intro h
    simp only [derive_repo_info] at h
    by_cases hc : (!repo.isEmpty && repo.contains '/') = true
    · refine ⟨?_, ?_⟩
      · intro hnil
        rw [hnil] at hc
        simp at hc
      · have := (Bool.and_eq_true _ _).mp hc
        simpa using this.2
    · rw [if_neg hc] at h
      simp at h
  · rintro ⟨hne, hmem⟩
    have hc : (!repo.isEmpty && repo.contains '/') = true := by
      simp [List.isEmpty_iff, hne]
      simpa using hmem
    have hlen : 2 ≤ (splitOnChar '/' repo).length := splitOnChar_length_two '/' repo hmem
    simp only [derive_repo_info, if_pos hc, if_pos hlen, Option.isSome_some]

/-! ## Claims about the validation filter (C1, C5, C6) -/

lemma mem_filter_validate {issues : List Issue} {content filePath : List Char} {i : Issue} :
    i ∈ filter_and_validate_issues issues content filePath ↔
      i ∈ issues ∧
        issue_drop (extract_classes content) (is_model_class content filePath) i = false := by
  simp [filter_and_validate_issues, List.mem_filter]

lemma issue_drop_false_iff {classes : List (List Char)} {isModel : Bool} {i : Issue} :
    issue_drop classes isModel i = false ↔
      (is_getter_setter i.functionName &&
        (containsSub "information hiding".data (lowerStr i.refactoringType) ||
         containsSub "information hiding".data (lowerStr i.rationale))) = false ∧
      (!i.className.isEmpty && !(classes.contains i.className)) = false ∧
      (isModel && containsSub "god class".data (lowerStr i.rationale)) = false ∧
      ((containsSub "feature envy".data (lowerStr i.refactoringType) ||
        containsSub "feature envy".data (lowerStr i.rationale)) &&
        ownFieldPhrases.any (fun p => containsSub p (lowerStr i.rationale))) = false ∧
      (containsSub "exposes public fields".data (lowerStr i.rationale) &&
        is_getter_setter i.functionName) = false := by
  simp only [issue_drop, Bool.or_eq_false_iff]
  tauto

def c1Content : List Char :=
  "public class Order \x7b\n  OrderLogic helper;\n  public void placeOrder() \x7b\x7d\n\x7d".data

def c1Issue : Issue :=
  { className := "OrderLogic".data, functionName := "run".data,
    refactoringType := "extract method".data, rationale := "too long".data }

/-- C1 counterexample: `OrderLogic` occurs in the analyzed source (as a
referenced token on line 2) but is not a declared type name; the issue citing
it is nevertheless dropped by `_filter_and_validate_issues` — the claim's
"retained whenever the name appears anywhere in the source text" fails. -/
theorem C1_counterexample :
    containsSub "OrderLogic".data c1Content = true ∧
    (extract_classes c1Content).contains "OrderLogic".data = false ∧
    filter_and_validate_issues [c1Issue] c1Content "Order.java".data = [] := by decide

/-- C1 (amended): the hallucination filter compares the issue's class name
against the declared class/interface/enum names only — an issue with a
non-empty undeclared class name is dropped even when the name occurs
elsewhere in the source text.  Every issue validation keeps has an empty or
declared class name, and an issue no filter fires on is kept. -/
theorem C1_amended (issues : List Issue) (content filePath : List Char) (i : Issue) :
    (i ∈ filter_and_validate_issues issues content filePath →
      i.className = [] ∨ i.className ∈ extract_classes content) ∧
    (i ∈ issues →
      issue_drop (extract_classes content) (is_model_class content filePath) i = false →
      i ∈ filter_and_validate_issues issues content filePath) := by
  constructor
  · intro h
    have hd := (issue_drop_false_iff.mp (mem_filter_validate.mp h).2).2.1
    rcases Bool.and_eq_false_iff.mp hd with h1 | h1
    · left
      have hb : i.className.isEmpty = true := by simpa using h1
      exact List.isEmpty_iff.mp hb
    · right
      have hb : (extract_classes content).contains i.className = true := by simpa using h1
      exact List.elem_iff.mp hb
  · intro hmem hdrop
    exact mem_filter_validate.mpr ⟨hmem, hdrop⟩

def c1WitnessContent : List Char := "public class Acct \x7b\n  int z;\n\x7d".data

def c1WitnessIssue : Issue :=
  { className := "Acct".data, functionName := "run".data,
    refactoringType := "extract method".data, rationale := "too long".data }

theorem C1_witness :
    c1WitnessIssue ∈
      filter_and_validate_issues [c1WitnessIssue] c1WitnessContent "Acct.java".data ∧
    (c1WitnessIssue.className = [] ∨
      c1WitnessIssue.className ∈ extract_classes c1WitnessContent) := by
  have h := C1_amended [c1WitnessIssue] c1WitnessContent "Acct.java".data c1WitnessIssue
  have hk := h.2 (List.mem_singleton.mpr rfl) (by decide)
  exact ⟨hk, h.1 hk⟩

def c5Content : List Char :=
  "public class Foo \x7b\n  public void computeStuff() \x7b\n  \x7d\n\x7d".data

/-- C5 counterexample: the same file content is classified as a model/DTO
class when its path contains `model` and not otherwise, although its declared
methods contain no getter/setter at all (fraction 0 of 1) — the path keywords
do play a role, and the ratio threshold is not 0.95. -/
theorem C5_counterexample :
    is_model_class c5Content "model/Foo.java".data = true ∧
    is_model_class c5Content "src/Foo.java".data = false ∧
    model_method_counts c5Content = (1, 0) := by decide

/-- C5 (amended): validation classifies a file as a model/DTO class iff its
lower-cased path contains one of `model`/`entity`/`dto`/`domain`/`pojo` or at
least 0.8 of its declared methods are getter/setter-classified (with at least
one method); on a model class every issue whose rationale mentions
`god class` is dropped, and an issue on the same class that no filter fires
on is retained. -/
theorem C5_amended (issues : List Issue) (content filePath : List Char) (i : Issue) :
    (is_model_class content filePath = true ↔
      pathIsModelish filePath = true ∨
        (0 < (model_method_counts content).1 ∧
          4 * (model_method_counts content).1 ≤ 5 * (model_method_counts content).2)) ∧
    (i ∈ issues → is_model_class content filePath = true →
      containsSub "god class".data (lowerStr i.rationale) = true →
      i ∉ filter_and_validate_issues issues content filePath) ∧
    (i ∈ issues →
      issue_drop (extract_classes content) (is_model_class content filePath) i = false →
      i ∈ filter_and_validate_issues issues content filePath) := by
  refine ⟨?_, ?_, ?_⟩
  · simp only [is_model_class]
    by_cases hp : pathIsModelish filePath = true
    · simp [hp]
    · by_cases ht : (model_method_counts content).1 > 0
      · simp [hp, ht, ge_iff_le]
      · simp [hp, ht]
  · intro hmem hmodel hgod hkept
    have hd := (issue_drop_false_iff.mp (mem_filter_validate.mp hkept).2).2.2.1
    rw [hmodel, hgod] at hd
    simp at hd
  · intro hmem hdrop
    exact mem_filter_validate.mpr ⟨hmem, hdrop⟩

def c5WitnessContent : List Char :=
  "public class Cfg \x7b\n  public String getA() \x7b return a; \x7d\n  public String getB() \x7b return b; \x7d\n\x7d".data

def c5WitnessDropIssue : Issue :=
  { className := "Cfg".data, functionName := [],
    refactoringType := "extract class".data,
    rationale := "This is a god class with too many responsibilities".data }

def c5WitnessKeepIssue : Issue :=
  { className := "Cfg".data, functionName := "run".data,
    refactoringType := "extract method".data, rationale := "too long".data }

theorem C5_witness :
    is_model_class c5WitnessContent "Cfg.java".data = true ∧
    c5WitnessDropIssue ∉
      filter_and_validate_issues [c5WitnessDropIssue, c5WitnessKeepIssue]
        c5WitnessContent "Cfg.java".data ∧
    c5WitnessKeepIssue ∈
      filter_and_validate_issues [c5WitnessDropIssue, c5WitnessKeepIssue]
        c5WitnessContent "Cfg.java".data := by
  have h1 := C5_amended [c5WitnessDropIssue, c5WitnessKeepIssue] c5WitnessContent
    "Cfg.java".data c5WitnessDropIssue
  have h2 := C5_amended [c5WitnessDropIssue, c5WitnessKeepIssue] c5WitnessContent
    "Cfg.java".data c5WitnessKeepIssue
  refine ⟨by decide, ?_, ?_⟩
  · exact h1.2.1 (by decide) (by decide) (by decide)
  · exact h2.2.2 (by decide) (by decide)

/-- C6 (confirmed): a method name containing a business-logic keyword is
never classified getter/setter; an issue flagged `information hiding` on
`getName` is always removed by validation, while the identically flagged
`getGreeting` survives the getter/setter filter and is retained whenever no
other filter fires. -/
theorem C6_theorem :
    (∀ name : List Char,
      businessLogicKeywords.any (fun kw => containsSub kw (lowerStr name)) = true →
      is_getter_setter name = false) ∧
    (∀ (issues : List Issue) (content filePath : List Char) (i : Issue), i ∈ issues →
      i.refactoringType = "information hiding".data →
      ((i.functionName = "getName".data →
         i ∉ filter_and_validate_issues issues content filePath) ∧
       (i.functionName = "getGreeting".data →
         (i.className = [] ∨ i.className ∈ extract_classes content) →
         (is_model_class content filePath &&
           containsSub "god class".data (lowerStr i.rationale)) = false →
         (containsSub "feature envy".data (lowerStr i.rationale) &&
           ownFieldPhrases.any (fun p => containsSub p (lowerStr i.rationale))) = false →
         i ∈ filter_and_validate_issues issues content filePath))) := by
  constructor
  · intro name hkw
    simp only [is_getter_setter, hkw]
    simp
  · intro issues content filePath i hmem hrt
    constructor
    · intro hfn hkept
      have hd := (issue_drop_false_iff.mp (mem_filter_validate.mp hkept).2).1
      rw [hfn, hrt] at hd
      have h1 : is_getter_setter "getName".data = true := by decide
      have h2 :
          containsSub "information hiding".data (lowerStr "information hiding".data) = true := by
        decide
      rw [h1, h2] at hd
      simp at hd
    · intro hfn hcls hmodel hfe
      refine mem_filter_validate.mpr ⟨hmem, issue_drop_false_iff.mpr ⟨?_, ?_, hmodel, ?_, ?_⟩⟩
      · rw [hfn]
        have h1 : is_getter_setter "getGreeting".data = false := by decide
        simp [h1]
      · rcases hcls with hcl | hcl
        · rw [hcl]
          simp
        · have hb : (extract_classes content).contains i.className = true := List.elem_iff.mpr hcl
          simp only [hb, Bool.not_true, Bool.and_false]
      · rw [hrt]
        have h1 : containsSub "feature envy".data (lowerStr "information hiding".data) = false := by
          decide
        simpa [h1] using hfe
      · rw [hfn]
        have h1 : is_getter_setter "getGreeting".data = false := by decide
        simp [h1]

theorem C6_witness :
    (is_getter_setter "getGreeting".data = false) ∧
    ({ className := "Acct2".data, functionName := "getName".data,
       refactoringType := "information hiding".data, rationale := "x".data } : Issue) ∉
      filter_and_validate_issues
        [{ className := "Acct2".data, functionName := "getName".data,
           refactoringType := "information hiding".data, rationale := "x".data }]
        "public class Acct2 {}".data "Acct2.java".data ∧
    ({ className := "Acct2".data, functionName := "getGreeting".data,
       refactoringType := "information hiding".data, rationale := "x".data } : Issue) ∈
      filter_and_validate_issues
        [{ className := "Acct2".data, functionName := "getGreeting".data,
           refactoringType := "information hiding".data, rationale := "x".data }]
        "public class Acct2 {}".data "Acct2.java".data := by
  refine ⟨C6_theorem.1 "getGreeting".data (by decide), ?_, ?_⟩
  · exact ( C6_theorem.2 _ "public class Acct2 {}".data "Acct2.java".data _
      (List.mem_singleton.mpr rfl) rfl).1 rfl
  · exact ( C6_theorem.2 _ "public class Acct2 {}".data "Acct2.java".data _
      (List.mem_singleton.mpr rfl) rfl).2 rfl (by decide) (by decide) (by decide)

/-! ## Claim C2: rank backfill -/

def c2Text : List Char := "[\x7b\"Class name\": \"A\"\x7d]".data

def c2Issue : Issue := { className := "A".data }

/-- The behaviour of `json.loads` on `c2Text`: a one-element array whose
object carries `Class name` but no `rank` key. -/
def c2Decoder : Decoder := fun t => if t = c2Text then .parsedList [c2Issue] else .failed

/-- C2 counterexample: an issue array parsed directly from the in-memory LLM
text is returned by `_parse_crew_output` exactly as parsed — no rank is
assigned — and the returned issue list of a successful single-file analysis
still carries no `rank`. -/
theorem C2_counterexample :
    parse_crew_output c2Decoder c2Text none none = [c2Issue] ∧
    c2Issue.rank = none ∧
    (run_single_analysis "public class A {}".data "A.java".data none (fun _ => 1)
        (fun _ => CrewOutcome.returns [c2Issue]) [] 3 2 false).returned = [c2Issue] := by
  decide

lemma mem_assignRanksFrom :
    ∀ (n : Nat) (l : List Issue) (i : Issue), i ∈ assignRanksFrom n l → i.rank ≠ none
  | _, [], _, h => absurd h (List.not_mem_nil _)
  | n, x :: xs, i, h => by
    rcases List.mem_cons.mp h with h1 | h1
    · by_cases hx : x.rank = none
      · rw [if_pos hx] at h1
        rw [h1]
        simp
      · rw [if_neg hx] at h1
        rw [h1]
        exact hx
    · exact mem_assignRanksFrom (n + 1) xs i h1

lemma mem_try_report {decode : Decoder} {content : List Char} {l : List Issue} {i : Issue}
    (h : try_report decode content = some l) (hm : i ∈ l) : i.rank ≠ none := by
  simp only [try_report] at h
  cases hb : extract_bracket content with
  | none => simp [hb] at h
  | some sub =>
    simp only [hb] at h
    cases hd : decode sub with
    | failed => simp [hd] at h
    | parsedOther => simp [hd] at h
    | parsedList l' =>
      simp only [hd] at h
      by_cases he : l'.isEmpty = true
      · simp [he] at h
      · rw [if_neg he] at h
        have heq : l = assign_ranks l' := (Option.some_injective _ h).symm
        rw [heq] at hm
        exact mem_assignRanksFrom 1 l' i hm

/-- C2 (amended): the defensive 1-based rank assignment happens exactly when
issues are loaded from a report file — every issue `_parse_report_files`
returns carries a rank — while a non-empty issue array parsed directly from
the in-memory LLM text is returned unchanged, so its issues may lack
`rank` in the final output. -/
theorem C2_amended (decode : Decoder) (ranking localization : Option (List Char))
    (resultText : List Char) (l : List Issue) (i : Issue) :
    (i ∈ parse_report_files decode ranking localization → i.rank ≠ none) ∧
    (resultText ≠ [] → isBlankText resultText = false → resultText ≠ "None".data →
      decode resultText = .parsedList l → l ≠ [] →
      parse_crew_output decode resultText ranking localization = l) := by
  constructor
  · intro h
    simp only [parse_report_files] at h
    cases h1 : ranking.bind (try_report decode) with
    | some out =>
      rw [h1] at h
      rcases Option.bind_eq_some.mp h1 with ⟨rc, _, htr⟩
      exact mem_try_report htr h
    | none =>
      rw [h1] at h
      cases h2 : localization.bind (try_report decode) with
      | some out =>
        rw [h2] at h
        rcases Option.bind_eq_some.mp h2 with ⟨lc, _, htr⟩
        exact mem_try_report htr h
      | none =>
        rw [h2] at h
        exact absurd h (List.not_mem_nil _)
  · intro h1 h2 h3 hdec hne
    have hcond : ¬(resultText = [] ∨ isBlankText resultText = true ∨
        resultText = "None".data) := by
      simp [h1, h2, h3]
    simp only [parse_crew_output, if_neg hcond, hdec]
    simp [List.isEmpty_iff, hne]

def c2WText : List Char := "oops not json [ \x7b\"Class name\": \"B\"\x7d ] trailing".data

def c2WSub : List Char := "[ \x7b\"Class name\": \"B\"\x7d ]".data

def c2WIssue : Issue := { className := "B".data }

/-- `json.loads` on the report substring `c2WSub` (an issue without `rank`)
and on the direct LLM text `c2Text` (same as `c2Decoder`). -/
def c2WDecoder : Decoder := fun t =>
  if t = c2WSub then .parsedList [c2WIssue]
  else if t = c2Text then .parsedList [c2Issue] else .failed

theorem C2_witness :
    ({ c2WIssue with rank := some 1 } : Issue).rank ≠ none ∧
    parse_crew_output c2WDecoder c2Text (some c2WText) none = [c2Issue] := by
  constructor
  · exact (C2_amended c2WDecoder (some c2WText) none c2Text [c2Issue]
      { c2WIssue with rank := some 1 }).1 (by decide)
  · exact (C2_amended c2WDecoder (some c2WText) none c2Text [c2Issue] c2WIssue).2
      (by decide) (by decide) (by decide) (by decide) (by decide)

/-! ## Claim C7: retry waits and the heuristic fallback -/

/-- The issue list the post-loop fallback of `_run_single_analysis` returns:
heuristic issues with URLs backfilled, or nothing if the generator raises. -/
def heuristic_fallback_issues (content filePath : List Char) (repoInfo : Option RepoInfo)
    (resolveLine : Issue → Nat) : List Issue :=
  match create_basic_issues content filePath with
  | some fb => backfill_urls repoInfo resolveLine filePath fb
  | none => []

lemma fallback_result_returned (content filePath : List Char) (ri : Option RepoInfo)
    (rl : Issue → Nat) (w : List Nat) (k : Nat) :
    (fallback_result content filePath ri rl w k).returned =
      heuristic_fallback_issues content filePath ri rl := by
  simp only [fallback_result, heuristic_fallback_issues]
  cases create_basic_issues content filePath <;> rfl

lemma runAux_zero (content filePath : List Char) (ri : Option RepoInfo)
    (rl : Issue → Nat) (outs : Nat → CrewOutcome) (fbe : List Char) (backoff : Nat)
    (cm : Bool) (n : Nat) (acc : List Nat) (calls : Nat) :
    runAttemptsAux content filePath ri rl outs fbe backoff cm n 0 acc calls =
      fallback_result content filePath ri rl acc calls := rfl

lemma runAux_one (content filePath : List Char) (ri : Option RepoInfo)
    (rl : Issue → Nat) (outs : Nat → CrewOutcome) (fbe : List Char) (backoff : Nat)
    (cm : Bool) (n : Nat) (acc : List Nat) (calls : Nat) (msg : List Char)
    (hstep : attempt_step outs fbe content filePath n = .error msg) :
    runAttemptsAux content filePath ri rl outs fbe backoff cm n 1 acc calls =
      fallback_result content filePath ri rl acc (calls + 1) := by
  simp [runAttemptsAux, hstep]

lemma runAux_step (content filePath : List Char) (ri : Option RepoInfo)
    (rl : Issue → Nat) (outs : Nat → CrewOutcome) (fbe : List Char) (backoff : Nat)
    (cm : Bool) (n r : Nat) (acc : List Nat) (calls : Nat) (msg : List Char) (w : Nat)
    (hr : 0 < r) (hstep : attempt_step outs fbe content filePath n = .error msg)
    (hw : retry_wait backoff n msg = some w) :
    runAttemptsAux content filePath ri rl outs fbe backoff cm n (r + 1) acc calls =
      runAttemptsAux content filePath ri rl outs fbe backoff cm (n + 1) r
        (acc ++ [w]) (calls + 1) := by
  simp only [runAttemptsAux, hstep, hw, if_pos hr]

lemma runAux_step_abandon (content filePath : List Char) (ri : Option RepoInfo)
    (rl : Issue → Nat) (outs : Nat → CrewOutcome) (fbe : List Char) (backoff : Nat)
    (cm : Bool) (n r : Nat) (acc : List Nat) (calls : Nat) (msg : List Char)
    (hstep : attempt_step outs fbe content filePath n = .error msg)
    (hw : retry_wait backoff n msg = none) :
    runAttemptsAux content filePath ri rl outs fbe backoff cm n (r + 1) acc calls =
      fallback_result content filePath ri rl acc (calls + 1) := by
  by_cases hr : 0 < r
  · simp only [runAttemptsAux, hstep, hw, if_pos hr]
  · simp only [runAttemptsAux, hstep, hw, if_neg hr]

lemma runAux_all_rate (content filePath : List Char) (ri : Option RepoInfo)
    (rl : Issue → Nat) (fbe msg : List Char) (backoff : Nat) (cm : Bool)
    (h : is_rate_limit_error msg = true) :
    ∀ (r n : Nat) (acc : List Nat) (calls : Nat),
      runAttemptsAux content filePath ri rl (fun _ => CrewOutcome.raises msg) fbe backoff cm
          n r acc calls =
        fallback_result content filePath ri rl (acc ++ List.replicate (r - 1) 60)
          (calls + r) := by
  have hstep : ∀ n, attempt_step (fun _ => CrewOutcome.raises msg) fbe content filePath n =
      .error msg := fun _ => rfl
  have hw : ∀ n, retry_wait backoff n msg = some 60 := fun n => by simp [retry_wait, h]
  intro r
  induction r with
  | zero => intro n acc calls; simp [runAux_zero]
  | succ s ih =>
    intro n acc calls
    cases s with
    | zero =>
      rw [runAux_one _ _ _ _ _ _ _ _ _ _ _ _ (hstep n)]
      simp
    | succ t =>
      rw [runAux_step _ _ _ _ _ _ _ _ _ _ _ _ _ _ (by omega) (hstep n) (hw n),
        ih (n + 1) (acc ++ [60]) (calls + 1)]
      have hcalls : calls + 1 + (t + 1) = calls + (t + 1 + 1) := by omega
      rw [hcalls, List.append_assoc]
      simp only [Nat.add_sub_cancel, List.singleton_append, List.replicate_succ]

lemma waits_range_shift (backoff n t : Nat) (hn : 1 ≤ n) :
    [backoff ^ (n - 1)] ++ (List.range t).map (fun j => backoff ^ (n + j)) =
      (List.range (t + 1)).map (fun j => backoff ^ (n - 1 + j)) := by
  rw [List.range_succ_eq_map, List.map_cons, List.map_map]
  simp only [List.singleton_append, List.cons.injEq]
  refine ⟨by simp, ?_⟩
  apply List.map_congr_left
  intro j _
  simp only [Function.comp_apply]
  congr 1
  omega

lemma runAux_all_llm (content filePath : List Char) (ri : Option RepoInfo)
    (rl : Issue → Nat) (fbe msg : List Char) (backoff : Nat) (cm : Bool)
    (h1 : is_rate_limit_error msg = false) (h2 : is_llm_error msg = true) :
    ∀ (r n : Nat) (acc : List Nat) (calls : Nat), 1 ≤ n →
      runAttemptsAux content filePath ri rl (fun _ => CrewOutcome.raises msg) fbe backoff cm
          n r acc calls =
        fallback_result content filePath ri rl
          (acc ++ (List.range (r - 1)).map (fun j => backoff ^ (n - 1 + j)))
          (calls + r) := by
  have hstep : ∀ n, attempt_step (fun _ => CrewOutcome.raises msg) fbe content filePath n =
      .error msg := fun _ => rfl
  have hw : ∀ n, retry_wait backoff n msg = some (backoff ^ (n - 1)) := fun n => by
    simp [retry_wait, h1, h2]
  intro r
  induction r with
  | zero => intro n acc calls hn; simp [runAux_zero]
  | succ s ih =>
    intro n acc calls hn
    cases s with
    | zero =>
      rw [runAux_one _ _ _ _ _ _ _ _ _ _ _ _ (hstep n)]
      simp
    | succ t =>
      rw [runAux_step _ _ _ _ _ _ _ _ _ _ _ _ _ _ (by omega) (hstep n) (hw n),
        ih (n + 1) (acc ++ [backoff ^ (n - 1)]) (calls + 1) (by omega)]
      have hcalls : calls + 1 + (t + 1) = calls + (t + 1 + 1) := by omega
      simp only [Nat.add_sub_cancel]
      rw [hcalls, List.append_assoc, waits_range_shift backoff n t hn]

lemma runAux_all_other (content filePath : List Char) (ri : Option RepoInfo)
    (rl : Issue → Nat) (fbe msg : List Char) (backoff : Nat) (cm : Bool)
    (h1 : is_rate_limit_error msg = false) (h2 : is_llm_error msg = false) :
    ∀ (r n : Nat) (acc : List Nat) (calls : Nat), 1 ≤ r →
      runAttemptsAux content filePath ri rl (fun _ => CrewOutcome.raises msg) fbe backoff cm
          n r acc calls =
        fallback_result content filePath ri rl acc (calls + 1) := by
  have hstep : ∀ n, attempt_step (fun _ => CrewOutcome.raises msg) fbe content filePath n =
      .error msg := fun _ => rfl
  have hw : ∀ n, retry_wait backoff n msg = none := fun n => by simp [retry_wait, h1, h2]
  intro r n acc calls hr
  cases r with
  | zero => exact absurd hr (by omega)
  | succ s =>
    cases s with
    | zero => exact runAux_one _ _ _ _ _ _ _ _ _ _ _ _ (hstep n)
    | succ t => exact runAux_step_abandon _ _ _ _ _ _ _ _ _ _ _ _ _ (hstep n) (hw n)

/-- C7 (confirmed): when every attempt raises the same error, a rate-limit
signature yields a fixed 60 s wait before each of the first
`max_retries − 1` retries; an LLM/transport signature (that is not a
rate-limit one — the rate-limit check has priority in the source) yields
waits `backoff^0, backoff^1, …`; any other error abandons the retries at
once; and in each case the analysis ends in the heuristic fallback, whose
issues are returned. -/
theorem C7_theorem (content filePath : List Char) (ri : Option RepoInfo)
    (rl : Issue → Nat) (msg fbe : List Char) (mr backoff : Nat) (cm : Bool)
    (w : List Nat) (k : Nat) :
    (is_rate_limit_error msg = true →
      run_single_analysis content filePath ri rl (fun _ => CrewOutcome.raises msg) fbe
          mr backoff cm =
        fallback_result content filePath ri rl (List.replicate (mr - 1) 60) mr) ∧
    (is_rate_limit_error msg = false → is_llm_error msg = true →
      run_single_analysis content filePath ri rl (fun _ => CrewOutcome.raises msg) fbe
          mr backoff cm =
        fallback_result content filePath ri rl
          ((List.range (mr - 1)).map (fun j => backoff ^ j)) mr) ∧
    (is_rate_limit_error msg = false → is_llm_error msg = false →
      run_single_analysis content filePath ri rl (fun _ => CrewOutcome.raises msg) fbe
          mr backoff cm =
        fallback_result content filePath ri rl [] (min 1 mr)) ∧
    (fallback_result content filePath ri rl w k).returned =
      heuristic_fallback_issues content filePath ri rl := by
  refine ⟨?_, ?_, ?_, fallback_result_returned content filePath ri rl w k⟩
  · intro h
    have := runAux_all_rate content filePath ri rl fbe msg backoff cm h mr 1 [] 0
    simpa [run_single_analysis] using this
  · intro h1 h2
    have := runAux_all_llm content filePath ri rl fbe msg backoff cm h1 h2 mr 1 [] 0
      (by omega)
    simpa [run_single_analysis] using this
  · intro h1 h2
    cases mr with
    | zero => simp [run_single_analysis, runAttemptsAux]
    | succ r =>
      have := runAux_all_other content filePath ri rl fbe msg backoff cm h1 h2
        (r + 1) 1 [] 0 (by omega)
      simp only [run_single_analysis]
      rw [this]
      congr 1
      omega

theorem C7_witness :
    is_rate_limit_error "429".data = true ∧
    (run_single_analysis "x".data "X.java".data none (fun _ => 1)
        (fun _ => CrewOutcome.raises "429".data) [] 3 2 false).waits = [60, 60] ∧
    is_rate_limit_error "timeout".data = false ∧ is_llm_error "timeout".data = true ∧
    (run_single_analysis "x".data "X.java".data none (fun _ => 1)
        (fun _ => CrewOutcome.raises "timeout".data) [] 3 2 false).waits = [1, 2] ∧
    is_rate_limit_error "boom".data = false ∧ is_llm_error "boom".data = false ∧
    (run_single_analysis "x".data "X.java".data none (fun _ => 1)
        (fun _ => CrewOutcome.raises "boom".data) [] 3 2 false).waits = [] ∧
    (run_single_analysis "x".data "X.java".data none (fun _ => 1)
        (fun _ => CrewOutcome.raises "429".data) [] 3 2 false).returned =
      heuristic_fallback_issues "x".data "X.java".data none (fun _ => 1) := by
  have hr := ( C7_theorem "x".data "X.java".data none (fun _ => 1) "429".data [] 3 2 false
    [] 0).1 (by decide)
  have hl := ( C7_theorem "x".data "X.java".data none (fun _ => 1) "timeout".data [] 3 2 false
    [] 0).2.1 (by decide) (by decide)
  have ho := ( C7_theorem "x".data "X.java".data none (fun _ => 1) "boom".data [] 3 2 false
    [] 0).2.2.1 (by decide) (by decide)
  refine ⟨by decide, ?_, by decide, by decide, ?_, by decide, by decide, ?_, ?_⟩
  · rw [hr]; decide
  · rw [hl]; decide
  · rw [ho]; decide
  · rw [hr]
    exact fallback_result_returned "x".data "X.java".data none (fun _ => 1) _ _

/-! ## Claim C9: the per-instance content cache -/

lemma fallback_result_cached_ok (content filePath : List Char) (ri : Option RepoInfo)
    (rl : Issue → Nat) (w : List Nat) (k : Nat) :
    (fallback_result content filePath ri rl w k).cached = none ∨
    (fallback_result content filePath ri rl w k).cached =
      some (fallback_result content filePath ri rl w k).returned := by
  simp only [fallback_result]
  cases create_basic_issues content filePath <;> simp

lemma runAux_cached_ok (content filePath : List Char) (ri : Option RepoInfo)
    (rl : Issue → Nat) (outs : Nat → CrewOutcome) (fbe : List Char) (backoff : Nat) :
    ∀ (r n : Nat) (acc : List Nat) (calls : Nat),
      (runAttemptsAux content filePath ri rl outs fbe backoff false n r acc calls).cached = none ∨
      (runAttemptsAux content filePath ri rl outs fbe backoff false n r acc calls).cached =
        some (runAttemptsAux content filePath ri rl outs fbe backoff false n r acc calls).returned
  | 0, n, acc, calls => fallback_result_cached_ok content filePath ri rl acc calls
  | r + 1, n, acc, calls => by
    cases hstep : attempt_step outs fbe content filePath n with
    | ok filtered => simp [runAttemptsAux, hstep]
    | error msg =>
      by_cases hr : 0 < r
      · cases hw : retry_wait backoff n msg with
        | some w =>
          rw [runAux_step content filePath ri rl outs fbe backoff false n r acc calls msg w
            hr hstep hw]
          exact runAux_cached_ok content filePath ri rl outs fbe backoff r (n + 1) _ _
        | none =>
          rw [runAux_step_abandon content filePath ri rl outs fbe backoff false n r acc calls
            msg hstep hw]
          exact fallback_result_cached_ok content filePath ri rl acc (calls + 1)
      · have hr0 : r = 0 := by omega
        subst hr0
        rw [runAux_one content filePath ri rl outs fbe backoff false n acc calls msg hstep]
        exact fallback_result_cached_ok content filePath ri rl acc (calls + 1)

lemma run_single_cached_ok (content filePath : List Char) (ri : Option RepoInfo)
    (rl : Issue → Nat) (outs : Nat → CrewOutcome) (fbe : List Char) (mr backoff : Nat) :
    (run_single_analysis content filePath ri rl outs fbe mr backoff false).cached = none ∨
    (run_single_analysis content filePath ri rl outs fbe mr backoff false).cached =
      some (run_single_analysis content filePath ri rl outs fbe mr backoff false).returned :=
  runAux_cached_ok content filePath ri rl outs fbe backoff mr 1 [] 0

lemma cacheLookup_insert_self (cache : AnalysisCache) (key : Int) (v : List Issue) :
    cacheLookup (cacheInsert cache key v) key = some v := by
  simp [cacheLookup, cacheInsert]

lemma analyze_single_file_hit (hashFn : List Char → Int) (ec : Bool)
    (o1 o2 : Nat → CrewOutcome) (fbe : List Char) (ri : Option RepoInfo)
    (rl : Issue → Nat) (mr b : Nat) (cache : AnalysisCache)
    (content filePath : List Char) (v : List Issue)
    (hhit : cacheLookup cache (hashFn content) = some v) :
    analyze_single_file hashFn ec o1 o2 fbe ri rl mr b cache content filePath =
      { returned := v, cache := cache, crewCalls := 0 } := by
  simp [analyze_single_file, hhit]

/-- C9 (confirmed): within one analyzer instance, once a call to
`analyze_single_file` has left the content's digest in the cache with value
`c`, that call returned exactly `c`, and a second call on byte-identical
content (any file path, any crew outcomes) returns `c` from the cache with
zero crew invocations and an unchanged cache. -/
theorem C9_theorem (hashFn : List Char → Int) (enableCheck : Bool)
    (o1 o2 o1' o2' : Nat → CrewOutcome) (fbe fbe' : List Char) (ri : Option RepoInfo)
    (rl : Issue → Nat) (mr b : Nat) (cache : AnalysisCache)
    (content filePath filePath' : List Char) (c : List Issue)
    (h : cacheLookup
      (analyze_single_file hashFn enableCheck o1 o2 fbe ri rl mr b cache content filePath).cache
      (hashFn content) = some c) :
    (analyze_single_file hashFn enableCheck o1 o2 fbe ri rl mr b cache content
        filePath).returned = c ∧
    analyze_single_file hashFn enableCheck o1' o2' fbe' ri rl mr b
        (analyze_single_file hashFn enableCheck o1 o2 fbe ri rl mr b cache content
          filePath).cache content filePath' =
      { returned := c,
        cache := (analyze_single_file hashFn enableCheck o1 o2 fbe ri rl mr b cache content
          filePath).cache,
        crewCalls := 0 } := by
  constructor
  · simp only [analyze_single_file] at h ⊢
    cases h0 : cacheLookup cache (hashFn content) with
    | some v =>
      simp only [h0] at h ⊢
      exact Option.some_injective _ h
    | none =>
      simp only [h0] at h ⊢
      by_cases hec : enableCheck = true
      · rw [if_pos hec] at h ⊢
        simp only [analyze_single_file_checked] at h ⊢
        rw [cacheLookup_insert_self] at h
        exact Option.some_injective _ h
      · rw [if_neg hec] at h ⊢
        simp only [analyze_single_file_unchecked] at h ⊢
        rcases run_single_cached_ok content filePath ri rl o1 fbe mr b with hc | hc
        · rw [hc] at h
          simp only [applyCached] at h
          rw [h0] at h
          exact absurd h (by simp)
        · rw [hc] at h
          simp only [applyCached] at h
          rw [cacheLookup_insert_self] at h
          exact Option.some_injective _ h
  · exact analyze_single_file_hit hashFn enableCheck o1' o2' fbe' ri rl mr b _ content
      filePath' c h

theorem C9_witness :
    cacheLookup
      (analyze_single_file (fun _ => 0) false (fun _ => CrewOutcome.returns []) (fun _ => CrewOutcome.returns [])
        [] none (fun _ => 1) 3 2 [] "public class A {}".data "A.java".data).cache 0 = some [] ∧
    (analyze_single_file (fun _ => 0) false (fun _ => CrewOutcome.returns []) (fun _ => CrewOutcome.returns [])
        [] none (fun _ => 1) 3 2 [] "public class A {}".data "A.java".data).returned = [] ∧
    analyze_single_file (fun _ => 0) false (fun _ => CrewOutcome.raises "429".data)
        (fun _ => CrewOutcome.raises "429".data) [] none (fun _ => 1) 3 2
        (analyze_single_file (fun _ => 0) false (fun _ => CrewOutcome.returns []) (fun _ => CrewOutcome.returns [])
          [] none (fun _ => 1) 3 2 [] "public class A {}".data "A.java".data).cache
        "public class A {}".data "Other.java".data =
      { returned := [],
        cache := (analyze_single_file (fun _ => 0) false (fun _ => CrewOutcome.returns [])
          (fun _ => CrewOutcome.returns []) [] none (fun _ => 1) 3 2 []
          "public class A {}".data "A.java".data).cache,
        crewCalls := 0 } := by
  have h := C9_theorem (fun _ => 0) false (fun _ => CrewOutcome.returns [])
    (fun _ => CrewOutcome.returns []) (fun _ => CrewOutcome.raises "429".data)
    (fun _ => CrewOutcome.raises "429".data) [] [] none (fun _ => 1) 3 2 []
    "public class A {}".data "A.java".data "Other.java".data [] (by decide)
  exact ⟨by decide, h.1, h.2⟩

/-! ## Scanning lemmas for the heuristic-generator claims (C3, C4, C10) -/

lemma splitOnChar_no_sep (sep : Char) :
    ∀ l : List Char, sep ∉ l → splitOnChar sep l = [l]
  | [], _ => rfl
  | c :: cs, h => by
    have hc : ¬c = sep := fun he => h (he ▸ List.mem_cons_self c cs)
    have ih := splitOnChar_no_sep sep cs (fun hm => h (List.mem_cons_of_mem c hm))
    simp only [splitOnChar, if_neg hc, ih]

lemma splitOnChar_append_cons (sep : Char) :
    ∀ (l rest : List Char), sep ∉ l →
      splitOnChar sep (l ++ sep :: rest) = l :: splitOnChar sep rest
  | [], rest, _ => by simp [splitOnChar]
  | c :: cs, rest, h => by
    have hc : ¬c = sep := fun he => h (he ▸ List.mem_cons_self c cs)
    have ih := splitOnChar_append_cons sep cs rest (fun hm => h (List.mem_cons_of_mem c hm))
    simp only [List.cons_append, splitOnChar, if_neg hc, List.append_eq, ih]

lemma joinLines_cons (l : List Char) (ls : List (List Char)) (h : ls ≠ []) :
    joinLines (l :: ls) = l ++ '\n' :: joinLines ls := by
  cases ls with
  | nil => exact absurd rfl h
  | cons l2 ls2 => rfl

lemma splitLines_joinLines :
    ∀ ls : List (List Char), ls ≠ [] → (∀ l ∈ ls, '\n' ∉ l) →
      splitLines (joinLines ls) = ls
  | [], h, _ => absurd rfl h
  | [l], _, hn => by
    simp only [joinLines, splitLines]
    exact splitOnChar_no_sep '\n' l (hn l (List.mem_singleton.mpr rfl))
  | l :: l2 :: ls, _, hn => by
    have ih := splitLines_joinLines (l2 :: ls) (by simp)
      (fun x hx => hn x (List.mem_cons_of_mem l hx))
    rw [joinLines_cons l (l2 :: ls) (by simp)]
    simp only [splitLines] at ih ⊢
    rw [splitOnChar_append_cons '\n' l (joinLines (l2 :: ls))
      (hn l (List.mem_cons_self l (l2 :: ls))), ih]

lemma mem_joinLines :
    ∀ (ls : List (List Char)) (c : Char), c ∈ joinLines ls →
      c = '\n' ∨ ∃ l ∈ ls, c ∈ l
  | [], c, h => absurd h (List.not_mem_nil c)
  | [l], c, h => Or.inr ⟨l, List.mem_singleton.mpr rfl, h⟩
  | l :: l2 :: ls, c, h => by
    rw [joinLines_cons l (l2 :: ls) (by simp)] at h
    rcases List.mem_append.mp h with h1 | h1
    · exact Or.inr ⟨l, List.mem_cons_self _ _, h1⟩
    · rcases List.mem_cons.mp h1 with h2 | h2
      · exact Or.inl h2
      · rcases mem_joinLines (l2 :: ls) c h2 with h3 | ⟨l', hl', hc⟩
        · exact Or.inl h3
        · exact Or.inr ⟨l', List.mem_cons_of_mem l hl', hc⟩

lemma lit_head_ne {p c : Char} {ps cs : List Char} (h : c ≠ p) :
    lit (p :: ps) (c :: cs) = none := by
  simp [lit, h]

lemma visKw_none {c : Char} {cs : List Char} (h : c ≠ 'p') : visKw (c :: cs) = none := by
  rw [visKw, show "public".data = 'p' :: "ublic".data from rfl, lit_head_ne h,
    show "private".data = 'p' :: "rivate".data from rfl, lit_head_ne h,
    show "protected".data = 'p' :: "rotected".data from rfl, lit_head_ne h]
  rfl

lemma stepMethodDecl_ne_p {prev : Option Char} {c : Char} {cs : List Char} (h : c ≠ 'p') :
    stepMethodDecl prev (c :: cs) = none := by
  simp only [stepMethodDecl]
  cases hb : atBoundary prev with
  | false => simp
  | true => simp [visKw_none h]

lemma scanMatches_no_p :
    ∀ (cs : List Char) (fuel : Nat) (prev : Option Char),
      (∀ c ∈ cs, c ≠ 'p') → scanMatches stepMethodDecl fuel prev cs = []
  | [], fuel, prev, _ => by cases fuel <;> rfl
  | c :: cs, fuel, prev, h => by
    cases fuel with
    | zero => rfl
    | succ f =>
      simp only [scanMatches, stepMethodDecl_ne_p (h c (List.mem_cons_self c cs))]
      exact scanMatches_no_p cs f (some c) (fun x hx => h x (List.mem_cons_of_mem c hx))

/-- The character just before the scan position after skipping `xs`. -/
def endPrev (prev : Option Char) (xs : List Char) : Option Char :=
  match xs.getLast? with
  | some c => some c
  | none => prev

lemma endPrev_cons (prev : Option Char) (x : Char) (xs : List Char) :
    endPrev prev (x :: xs) = endPrev (some x) xs := by
  cases xs with
  | nil => simp [endPrev]
  | cons y ys =>
    simp only [endPrev, List.getLast?_cons_cons]
    cases hg : (y :: ys).getLast? with
    | some c => rfl
    | none => simp [List.getLast?_eq_none_iff] at hg

lemma scanMatches_skip_no_p :
    ∀ (xs rest : List Char) (fuel : Nat) (prev : Option Char),
      (∀ c ∈ xs, c ≠ 'p') → xs.length + rest.length ≤ fuel →
      scanMatches stepMethodDecl fuel prev (xs ++ rest) =
        scanMatches stepMethodDecl (fuel - xs.length) (endPrev prev xs) rest
  | [], rest, fuel, prev, _, _ => by simp [endPrev]
  | x :: xs, rest, fuel, prev, h, hf => by
    cases fuel with
    | zero => simp at hf
    | succ f =>
      rw [List.cons_append]
      simp only [scanMatches, stepMethodDecl_ne_p (h x (List.mem_cons_self x xs))]
      rw [scanMatches_skip_no_p xs rest f (some x)
        (fun c hc => h c (List.mem_cons_of_mem x hc)) (by simp at hf; omega)]
      rw [endPrev_cons, List.length_cons, Nat.succ_sub_succ]

lemma ne_p_of_mem_no_p {l : List Char} (hl : l.all (fun c => !(c = 'p')) = true)
    {c : Char} (hc : c ∈ l) : c ≠ 'p' := by
  have := List.all_eq_true.mp hl c hc
  simpa using this

/-! ## The long-method family (C3) and the god-class family (C4) -/

def lm_header : List Char := "public void run() \x7b".data

def lm_filler : List Char := "doStuff();".data

def lm_close : List Char := "\x7d".data

/-- A file with one method: its opening line, `m` body lines, and the closing
brace, so the long-method scanner counts `m + 1` lines for it. -/
def method_file_lines (m : Nat) : List (List Char) :=
  lm_header :: (List.replicate m lm_filler ++ [lm_close])

def method_file (m : Nat) : List Char := joinLines (method_file_lines m)

/-- A file consisting of `n` one-line public methods named `alpha`. -/
def gc_block : List Char := "public void alpha() { }".data

def god_file (n : Nat) : List Char := joinLines (List.replicate n gc_block)

lemma method_file_lines_cases {m : Nat} {l : List Char} (h : l ∈ method_file_lines m) :
    l = lm_header ∨ l = lm_filler ∨ l = lm_close := by
  simp only [method_file_lines, List.mem_cons, List.mem_append, List.mem_replicate,
    List.mem_singleton] at h
  tauto

lemma stepMethodDecl_run (prev : Option Char) (h : atBoundary prev = true)
    (rest : List Char) :
    stepMethodDecl prev ('p' :: ("ublic void run(".data ++ rest)) =
      some ("run".data, '(', rest) := by
  simp only [stepMethodDecl, h]
  rfl

lemma stepMethodDecl_alpha (prev : Option Char) (h : atBoundary prev = true)
    (rest : List Char) :
    stepMethodDecl prev ('p' :: ("ublic void alpha(".data ++ rest)) =
      some ("alpha".data, '(', rest) := by
  simp only [stepMethodDecl, h]
  rfl

lemma scanMatches_run_head (rest : List Char) (f : Nat) (prev : Option Char)
    (hb : atBoundary prev = true) :
    scanMatches stepMethodDecl (f + 1) prev ('p' :: ("ublic void run(".data ++ rest)) =
      "run".data :: scanMatches stepMethodDecl f (some '(') rest := by
  have hlen : rest.length ≤ ("ublic void run(".data ++ rest).length := by
    simp only [List.length_append]
    omega
  simp only [scanMatches, stepMethodDecl_run prev hb rest, hlen, if_true]

lemma scanMatches_alpha_head (rest : List Char) (f : Nat) (prev : Option Char)
    (hb : atBoundary prev = true) :
    scanMatches stepMethodDecl (f + 1) prev ('p' :: ("ublic void alpha(".data ++ rest)) =
      "alpha".data :: scanMatches stepMethodDecl f (some '(') rest := by
  have hlen : rest.length ≤ ("ublic void alpha(".data ++ rest).length := by
    simp only [List.length_append]
    omega
  simp only [scanMatches, stepMethodDecl_alpha prev hb rest, hlen, if_true]

lemma method_file_decomp (m : Nat) :
    method_file m =
      'p' :: ("ublic void run(".data ++
        (") \x7b".data ++ '\n' :: joinLines (List.replicate m lm_filler ++ [lm_close]))) := by
  rw [method_file, method_file_lines, joinLines_cons _ _ (by simp)]
  rfl

lemma scanAll_method_file (m : Nat) :
    scanAll stepMethodDecl (method_file m) = ["run".data] := by
  have hnp : ∀ c ∈ (") \x7b".data ++
      '\n' :: joinLines (List.replicate m lm_filler ++ [lm_close])), c ≠ 'p' := by
    intro c hc
    rcases List.mem_append.mp hc with h1 | h1
    · exact ne_p_of_mem_no_p (by decide) h1
    · rcases List.mem_cons.mp h1 with h2 | h2
      · subst h2; decide
      · rcases mem_joinLines _ c h2 with h3 | ⟨l, hl, hcl⟩
        · subst h3; decide
        · rcases List.mem_append.mp hl with h4 | h4
          · rw [List.eq_of_mem_replicate h4] at hcl
            exact ne_p_of_mem_no_p (by decide) hcl
          · rw [List.mem_singleton.mp h4] at hcl
            exact ne_p_of_mem_no_p (by decide) hcl
  rw [scanAll, method_file_decomp m]
  rw [List.length_cons, scanMatches_run_head _ _ none (by decide),
    scanMatches_no_p _ _ _ hnp]

lemma god_file_succ_decomp (n : Nat) :
    god_file (n + 2) =
      'p' :: ("ublic void alpha(".data ++
        ((") { }".data ++ ['\n']) ++ god_file (n + 1))) := by
  rw [god_file, show List.replicate (n + 2) gc_block =
      gc_block :: List.replicate (n + 1) gc_block from rfl,
    joinLines_cons _ _ (by simp), god_file]
  rfl

lemma scanMatches_god :
    ∀ (n fuel : Nat) (prev : Option Char), atBoundary prev = true →
      (god_file n).length ≤ fuel →
      scanMatches stepMethodDecl fuel prev (god_file n) = List.replicate n "alpha".data
  | 0, fuel, prev, _, _ => by cases fuel <;> rfl
  | 1, fuel, prev, hb, hf => by
    cases fuel with
    | zero => exact absurd hf (by decide)
    | succ f =>
      have e : god_file 1 = 'p' :: ("ublic void alpha(".data ++ ") { }".data) := rfl
      rw [e, scanMatches_alpha_head _ _ _ hb,
        scanMatches_no_p _ _ _ (fun c hc => ne_p_of_mem_no_p (by decide) hc)]
      rfl
  | n + 2, fuel, prev, hb, hf => by
    rw [god_file_succ_decomp n] at hf ⊢
    cases fuel with
    | zero => simp at hf
    | succ f =>
      have hlen : (") { }".data ++ ['\n']).length + (god_file (n + 1)).length ≤ f := by
        simp only [List.length_cons, List.length_append] at hf ⊢
        omega
      rw [scanMatches_alpha_head _ _ _ hb,
        scanMatches_skip_no_p (") { }".data ++ ['\n']) (god_file (n + 1)) f (some '(')
          (fun c hc => ne_p_of_mem_no_p (by decide) hc) hlen]
      have hend : endPrev (some '(') (") { }".data ++ ['\n']) = some '\n' := rfl
      rw [hend, scanMatches_god (n + 1) (f - (") { }".data ++ ['\n']).length)
        (some '\n') (by decide) (by simp only [List.length_append] at hlen ⊢; omega)]
      rfl

lemma scanAll_god_file (n : Nat) :
    scanAll stepMethodDecl (god_file n) = List.replicate n "alpha".data :=
  scanMatches_god n (god_file n).length none (by decide) (Nat.le_refl _)

/-! ## Pass lemmas -/

lemma longMethodPass_skip (cls : List Char) :
    ∀ (m : Nat) (rest : List (List Char)) (i c : Nat) (nm : List Char) (s : Nat)
      (acc : List Issue),
      longMethodPass cls (List.replicate m lm_filler ++ rest) i ⟨true, c, nm, s⟩ acc =
        longMethodPass cls rest (i + m) ⟨true, c + m, nm, s⟩ acc
  | 0, rest, i, c, nm, s, acc => by simp
  | m + 1, rest, i, c, nm, s, acc => by
    rw [List.replicate_succ, List.cons_append]
    have h1 : isMethodHeaderLine lm_filler = false := by decide
    have h2 : lm_filler.contains '}' = false := by decide
    simp only [longMethodPass, h1, h2]
    rw [longMethodPass_skip cls m rest (i + 1) (c + 1) nm s acc]
    have e1 : i + 1 + m = i + (m + 1) := by omega
    have e2 : c + 1 + m = c + (m + 1) := by omega
    rw [e1, e2]
    simp

lemma longMethodPass_headers (cls : List Char) :
    ∀ (lines : List (List Char)) (i : Nat) (st : LMState) (acc : List Issue),
      (∀ l ∈ lines, isMethodHeaderLine l = true ∧ (headerMethodName l).isSome = true) →
      longMethodPass cls lines i st acc = some acc
  | [], _, _, _, _ => rfl
  | l :: rest, i, st, acc, h => by
    obtain ⟨h1, h2⟩ := h l (List.mem_cons_self l rest)
    obtain ⟨nm, hnm⟩ := Option.isSome_iff_exists.mp h2
    simp only [longMethodPass, h1, hnm, if_true]
    exact longMethodPass_headers cls rest (i + 1) _ acc
      (fun x hx => h x (List.mem_cons_of_mem l hx))

lemma inlineVarPass_nil (cls : List Char) :
    ∀ (lines : List (List Char)) (i : Nat) (acc : List Issue),
      (∀ l ∈ lines, inline_var_match l = none) → inlineVarPass cls lines i acc = acc
  | [], _, _, _ => rfl
  | l :: rest, i, acc, h => by
    simp only [inlineVarPass, h l (List.mem_cons_self l rest)]
    exact inlineVarPass_nil cls rest (i + 1) acc
      (fun x hx => h x (List.mem_cons_of_mem l hx))

lemma fieldAccessPass_nil (cls : List Char) :
    ∀ (lines : List (List Char)) (i : Nat) (seen : List (List Char)) (acc : List Issue),
      (∀ l ∈ lines, scanAll stepFieldAccess l = []) →
      fieldAccessPass cls lines i seen acc = acc
  | [], _, _, _, _ => rfl
  | l :: rest, i, seen, acc, h => by
    simp only [fieldAccessPass, h l (List.mem_cons_self l rest), fieldAccessLine]
    exact fieldAccessPass_nil cls rest (i + 1) seen acc
      (fun x hx => h x (List.mem_cons_of_mem l hx))

lemma collectPubFields_nil :
    ∀ (lines : List (List Char)) (i : Nat),
      (∀ l ∈ lines, lineIsCommentish l = true ∨ pub_field_decl_match l = none) →
      collectPubFields lines i = []
  | [], _, _ => rfl
  | l :: rest, i, h => by
    have ih := collectPubFields_nil rest (i + 1)
      (fun x hx => h x (List.mem_cons_of_mem l hx))
    cases hcc : lineIsCommentish l with
    | true => simp only [collectPubFields, hcc, if_true, ih]
    | false =>
      rcases h l (List.mem_cons_self l rest) with hc | hc
      · rw [hcc] at hc
        cases hc
      · simp [collectPubFields, hcc, hc, ih]

lemma pubFieldDeclPass_nil (cls : List Char) (lines : List (List Char)) (acc : List Issue)
    (h : collectPubFields lines 1 = []) : pubFieldDeclPass cls lines acc = acc := by
  simp [pubFieldDeclPass, h]

lemma filter_replicate_length {α : Type} (p : α → Bool) (x : α) (hx : p x = true) :
    ∀ n : Nat, ((List.replicate n x).filter p).length = n
  | 0 => rfl
  | n + 1 => by
    rw [List.replicate_succ, List.filter_cons, if_pos hx, List.length_cons,
      filter_replicate_length p x hx n]

set_option maxRecDepth 40000 in
/-- C3. The spec claims the long-method heuristic fires when a method body
exceeds 20 lines, so that a 21-line method yields an issue.  In the code the
threshold is `> 25`: a file whose single method counts 21 lines (20 body
lines plus the closing brace) produces no heuristic issue at all, and the
first count that fires is 26. -/
theorem C3_counterexample :
    create_basic_issues (method_file 20) "A.java".data = some [] ∧
    create_basic_issues (method_file 25) "A.java".data =
      some [longMethodIssue "A".data "run".data 26 1 1] := by
  constructor
  · rfl
  · rfl

/-- C3 (amended): the long-method heuristic of `_create_basic_issues` emits
exactly one `extract method` issue of severity `medium`, anchored at the
method's opening line and citing the exact line count, precisely when the
counted line span (body lines plus closing brace) exceeds 25 — not 20 as the
spec claims.  Stated for the whole single-method file family. -/
theorem C3_amended (m : Nat) :
    create_basic_issues (method_file m) "A.java".data =
      some (if 25 < m + 1 then [longMethodIssue "A".data "run".data (m + 1) 1 1]
            else []) := by
  have hbase : baseClassName "A.java".data = "A".data := by decide
  have hsplit : splitLines (method_file m) = method_file_lines m := by
    rw [method_file]
    refine splitLines_joinLines _ (by simp [method_file_lines]) ?_
    intro l hl
    rcases method_file_lines_cases hl with h | h | h <;> (subst h; decide)
  have hlm : longMethodPass "A".data (method_file_lines m) 1 ⟨false, 0, [], 0⟩ [] =
      some (if 25 < m + 1 then [longMethodIssue "A".data "run".data (m + 1) 1 1]
            else []) := by
    have hh : isMethodHeaderLine lm_header = true := by decide
    have hn : headerMethodName lm_header = some "run".data := by decide
    have hch : isMethodHeaderLine lm_close = false := by decide
    have hcc : lm_close.contains '}' = true := by decide
    rw [method_file_lines]
    simp only [longMethodPass, hh, hn, if_true]
    rw [longMethodPass_skip "A".data m [lm_close] (1 + 1) 0 "run".data 1 []]
    simp only [longMethodPass, hch, hcc]
    simp
  have hgod : ∀ acc : List Issue, godClassPass "A".data (method_file m) acc = acc := by
    intro acc
    simp only [godClassPass, scanAll_method_file m]
    rw [if_neg (by decide)]
  have hinl : ∀ acc : List Issue,
      inlineVarPass "A".data (method_file_lines m) 0 acc = acc := by
    intro acc
    refine inlineVarPass_nil _ _ _ acc ?_
    intro l hl
    rcases method_file_lines_cases hl with h | h | h <;> (subst h; decide)
  have hfa : ∀ acc : List Issue,
      fieldAccessPass "A".data (method_file_lines m) 1 [] acc = acc := by
    intro acc
    refine fieldAccessPass_nil _ _ _ _ acc ?_
    intro l hl
    rcases method_file_lines_cases hl with h | h | h <;> (subst h; decide)
  have hcoll : collectPubFields (method_file_lines m) 1 = [] := by
    refine collectPubFields_nil _ _ ?_
    intro l hl
    rcases method_file_lines_cases hl with h | h | h <;> (subst h; right; decide)
  simp only [create_basic_issues, hsplit, hbase, hlm]
  rw [hgod _, hinl _, hfa _, pubFieldDeclPass_nil _ _ _ hcoll]

/-- C4. The spec claims the god-class heuristic fires when the non-accessor
method count exceeds 3, so that 4 such methods yield an issue.  In the code
the threshold is `> 5`: a class with 4 business methods produces no issue,
and 6 are needed before one appears. -/
theorem C4_counterexample :
    business_method_count (god_file 4) = 4 ∧
    create_basic_issues (god_file 4) "B.java".data = some [] ∧
    create_basic_issues (god_file 6) "B.java".data =
      some [godClassIssue "B".data 6 1] := by
  refine ⟨rfl, rfl, rfl⟩

/-- C4 (amended): the god-class heuristic of `_create_basic_issues` emits
exactly one `extract class` issue of severity `high` anchored at line 1,
citing the non-accessor method count, precisely when that count exceeds 5 —
not 3 as the spec claims.  Stated for the whole n-method file family. -/
theorem C4_amended (n : Nat) :
    create_basic_issues (god_file n) "B.java".data =
      some (if 5 < n then [godClassIssue "B".data n 1] else []) ∧
    business_method_count (god_file n) = n := by
  have hcount : business_method_count (god_file n) = n := by
    rw [business_method_count, scanAll_god_file,
      filter_replicate_length _ _ (by decide) n]
  refine ⟨?_, hcount⟩
  cases n with
  | zero => decide
  | succ k =>
    have hbase : baseClassName "B.java".data = "B".data := by decide
    have hmem : ∀ l ∈ List.replicate (k + 1) gc_block, l = gc_block := by
      intro l hl
      exact List.eq_of_mem_replicate hl
    have hsplit : splitLines (god_file (k + 1)) = List.replicate (k + 1) gc_block := by
      rw [god_file]
      refine splitLines_joinLines _ (by simp) ?_
      intro l hl
      rw [hmem l hl]
      decide
    have hlm : longMethodPass "B".data (List.replicate (k + 1) gc_block) 1
        ⟨false, 0, [], 0⟩ [] = some [] := by
      refine longMethodPass_headers _ _ _ _ _ ?_
      intro l hl
      rw [hmem l hl]
      exact ⟨by decide, by decide⟩
    have hfil : ((List.replicate (k + 1) "alpha".data).filter
        (fun s => !isAccessorName s)).length = k + 1 :=
      filter_replicate_length _ _ (by decide) (k + 1)
    have hgod : godClassPass "B".data (god_file (k + 1)) [] =
        if 5 < k + 1 then [godClassIssue "B".data (k + 1) 1] else [] := by
      simp only [godClassPass, scanAll_god_file, hfil]
      simp
    have hinl : ∀ acc : List Issue,
        inlineVarPass "B".data (List.replicate (k + 1) gc_block) 0 acc = acc := by
      intro acc
      refine inlineVarPass_nil _ _ _ acc ?_
      intro l hl
      rw [hmem l hl]
      decide
    have hfa : ∀ acc : List Issue,
        fieldAccessPass "B".data (List.replicate (k + 1) gc_block) 1 [] acc = acc := by
      intro acc
      refine fieldAccessPass_nil _ _ _ _ acc ?_
      intro l hl
      rw [hmem l hl]
      decide
    have hcoll : collectPubFields (List.replicate (k + 1) gc_block) 1 = [] := by
      refine collectPubFields_nil _ _ ?_
      intro l hl
      rw [hmem l hl]
      right
      decide
    simp only [create_basic_issues, hsplit, hbase, hlm]
    rw [hinl _, hfa _, pubFieldDeclPass_nil _ _ _ hcoll]
    exact congrArg some hgod

/-! ## Every heuristic issue's class name is the file's base name (C10) -/

lemma longMethodPass_className (cls : List Char) :
    ∀ (lines : List (List Char)) (i : Nat) (st : LMState) (acc res : List Issue),
      longMethodPass cls lines i st acc = some res →
      (∀ j ∈ acc, j.className = cls) → ∀ j ∈ res, j.className = cls
  | [], _, _, acc, res, heq, hacc => by
    simp only [longMethodPass, Option.some_inj] at heq
    subst heq
    exact hacc
  | l :: rest, i, st, acc, res, heq, hacc => by
    simp only [longMethodPass] at heq
    split at heq
    · split at heq
      · exact absurd heq (by simp)
      · exact longMethodPass_className cls rest _ _ _ _ heq hacc
    · split at heq
      · split at heq
        · refine longMethodPass_className cls rest _ _ _ _ heq ?_
          intro j hj
          split at hj
          · rcases List.mem_append.mp hj with hj | hj
            · exact hacc j hj
            · rw [List.mem_singleton.mp hj]
              rfl
          · exact hacc j hj
        · exact longMethodPass_className cls rest _ _ _ _ heq hacc
      · exact longMethodPass_className cls rest _ _ _ _ heq hacc

lemma godClassPass_className (cls content : List Char) (acc : List Issue)
    (hacc : ∀ j ∈ acc, j.className = cls) :
    ∀ j ∈ godClassPass cls content acc, j.className = cls := by
  intro j hj
  simp only [godClassPass] at hj
  split at hj
  · rcases List.mem_append.mp hj with hj | hj
    · exact hacc j hj
    · rw [List.mem_singleton.mp hj]
      rfl
  · exact hacc j hj

lemma inlineVarPass_className (cls : List Char) :
    ∀ (lines : List (List Char)) (i : Nat) (acc : List Issue),
      (∀ j ∈ acc, j.className = cls) →
      ∀ j ∈ inlineVarPass cls lines i acc, j.className = cls
  | [], _, _, hacc => hacc
  | l :: rest, i, acc, hacc => by
    simp only [inlineVarPass]
    split
    · refine inlineVarPass_className cls rest (i + 1) _ ?_
      intro j hj
      split at hj
      · rcases List.mem_append.mp hj with hj | hj
        · exact hacc j hj
        · rw [List.mem_singleton.mp hj]
          rfl
      · exact hacc j hj
    · exact inlineVarPass_className cls rest (i + 1) acc hacc

lemma fieldAccessLine_className (cls : List Char) (i : Nat) :
    ∀ (ms : List (List Char × List Char)) (seen : List (List Char)) (acc : List Issue),
      (∀ j ∈ acc, j.className = cls) →
      ∀ j ∈ (fieldAccessLine cls i ms (seen, acc)).2, j.className = cls
  | [], _, _, hacc => hacc
  | (obj, fld) :: ms, seen, acc, hacc => by
    simp only [fieldAccessLine]
    split
    · exact fieldAccessLine_className cls i ms seen acc hacc
    · split
      · exact fieldAccessLine_className cls i ms seen acc hacc
      · refine fieldAccessLine_className cls i ms _ _ ?_
        intro j hj
        rcases List.mem_append.mp hj with hj | hj
        · exact hacc j hj
        · rw [List.mem_singleton.mp hj]
          rfl

lemma fieldAccessPass_className (cls : List Char) :
    ∀ (lines : List (List Char)) (i : Nat) (seen : List (List Char)) (acc : List Issue),
      (∀ j ∈ acc, j.className = cls) →
      ∀ j ∈ fieldAccessPass cls lines i seen acc, j.className = cls
  | [], _, _, _, hacc => hacc
  | l :: rest, i, seen, acc, hacc => by
    simp only [fieldAccessPass]
    exact fieldAccessPass_className cls rest (i + 1) _ _
      (fieldAccessLine_className cls i _ seen acc hacc)

lemma pubFieldDeclPass_className (cls : List Char) (lines : List (List Char))
    (acc : List Issue) (hacc : ∀ j ∈ acc, j.className = cls) :
    ∀ j ∈ pubFieldDeclPass cls lines acc, j.className = cls := by
  intro j hj
  simp only [pubFieldDeclPass] at hj
  split at hj
  · exact hacc j hj
  · rcases List.mem_append.mp hj with hj | hj
    · exact hacc j hj
    · rw [List.mem_singleton.mp hj]

lemma create_basic_issues_className (content filePath : List Char) (hs : List Issue)
    (h : create_basic_issues content filePath = some hs) :
    ∀ j ∈ hs, j.className = baseClassName filePath := by
  simp only [create_basic_issues] at h
  cases hlm : longMethodPass (baseClassName filePath) (splitLines content) 1
      ⟨false, 0, [], 0⟩ [] with
  | none =>
    rw [hlm] at h
    exact absurd h (by simp)
  | some acc1 =>
    rw [hlm] at h
    simp only [Option.some_inj] at h
    subst h
    have hacc1 : ∀ j ∈ acc1, j.className = baseClassName filePath :=
      longMethodPass_className _ _ _ _ _ _ hlm
        (fun j hj => absurd hj (List.not_mem_nil j))
    exact pubFieldDeclPass_className _ _ _
      (fieldAccessPass_className _ _ _ _ _
        (inlineVarPass_className _ _ _ _
          (godClassPass_className _ _ _ hacc1)))

lemma issue_drop_hallucination (classes : List (List Char)) (im : Bool) (i : Issue)
    (h1 : i.className ≠ []) (h2 : i.className ∉ classes) :
    issue_drop classes im i = true := by
  simp only [issue_drop, Bool.or_eq_true]
  refine Or.inl (Or.inl (Or.inl (Or.inr ?_)))
  cases hcn : i.className with
  | nil => exact absurd hcn h1
  | cons c cs =>
    rw [hcn] at h2
    simp [hcn, h2]

lemma filter_validate_drop_all (issues : List Issue) (content filePath : List Char)
    (h : ∀ i ∈ issues,
      issue_drop (extract_classes content) (is_model_class content filePath) i = true) :
    filter_and_validate_issues issues content filePath = [] := by
  simp only [filter_and_validate_issues]
  rw [List.filter_eq_nil_iff]
  intro a ha
  simp [h a ha]

lemma backfill_urls_empty (ri : Option RepoInfo) (rl : Issue → Nat) (p : List Char) :
    backfill_urls ri rl p [] = [] := by
  cases ri <;> rfl

set_option maxRecDepth 40000 in
/-- C10. The claim is that whenever a file's base class name matches no
declared class in its content, the substituted heuristic issues are all
dropped as hallucinations.  The hallucination filter only fires on a
*non-empty* class name: for the path `.java` the base name is empty, the
content declares no class at all, yet the heuristic long-method issue
(class name empty) survives filtering and the analysis returns it. -/
theorem C10_counterexample :
    baseClassName ".java".data = [] ∧
    extract_classes (method_file 25) = [] ∧
    (run_single_analysis (method_file 25) ".java".data none (fun _ => 0)
        (fun _ => CrewOutcome.returns []) "e".data 3 2 false).returned =
      [longMethodIssue [] "run".data 26 1 1] :=
  ⟨rfl, rfl, rfl⟩

/-- C10 (amended): when an attempt's crew output parses to an empty issue
list, the heuristic issues are substituted and passed through validation, and
if the file's base name is *non-empty* and matches no declared
class/interface/enum of the content, every heuristic issue is dropped as a
hallucination (their class names all equal the base name), so the attempt
post-processes to `some []` and the analysis returns an empty issue list. -/
theorem C10_amended (content filePath : List Char) (hs : List Issue)
    (ri : Option RepoInfo) (rl : Issue → Nat) (outcomes : Nat → CrewOutcome)
    (fbe : List Char) (mr backoff : Nat) (cm : Bool)
    (hcr : create_basic_issues content filePath = some hs)
    (hb : baseClassName filePath ≠ [])
    (hnd : baseClassName filePath ∉ extract_classes content)
    (hout : outcomes 1 = CrewOutcome.returns [])
    (hmr : 1 ≤ mr) :
    attempt_post_process [] content filePath = some [] ∧
    (run_single_analysis content filePath ri rl outcomes fbe mr backoff cm).returned
      = [] := by
  have hcls := create_basic_issues_className content filePath hs hcr
  have hdrop : ∀ i ∈ hs,
      issue_drop (extract_classes content) (is_model_class content filePath) i = true := by
    intro i hi
    refine issue_drop_hallucination _ _ i ?_ ?_
    · rw [hcls i hi]
      exact hb
    · rw [hcls i hi]
      exact hnd
  have hfil : filter_and_validate_issues hs content filePath = [] :=
    filter_validate_drop_all hs content filePath hdrop
  have happ : attempt_post_process [] content filePath = some [] := by
    simp only [attempt_post_process, List.isEmpty_nil, if_true, hcr, hfil]
  refine ⟨happ, ?_⟩
  obtain ⟨r, rfl⟩ : ∃ r, mr = r + 1 := ⟨mr - 1, by omega⟩
  have hstep : attempt_step outcomes fbe content filePath 1 = Except.ok [] := by
    simp only [attempt_step, hout, happ]
  simp only [run_single_analysis, runAttemptsAux, hstep]
  exact backfill_urls_empty ri rl filePath

set_option maxRecDepth 40000 in
theorem C10_witness :
    attempt_post_process [] (method_file 25) "Z.java".data = some [] ∧
    (run_single_analysis (method_file 25) "Z.java".data none (fun _ => 0)
        (fun _ => CrewOutcome.returns []) "e".data 3 2 false).returned = [] :=
  C10_amended (method_file 25) "Z.java".data
    [longMethodIssue "Z".data "run".data 26 1 1] none (fun _ => 0)
    (fun _ => CrewOutcome.returns []) "e".data 3 2 false rfl (by decide) (by decide)
    rfl (by decide)

end CCA
